import Mathlib

/-!
Verification development for the rendering engine of this repository
(an offline physically based Monte Carlo ray tracer).

The C++ sources are embedded shallowly:

* machine floating point (`float` / `double`) is idealised as exact
  arithmetic — `ℚ` where the code is pure rational arithmetic (so every
  definition is executable), `ℝ` where the code calls transcendental
  functions (`acos`, `atan2`, `sin`, `cos`, `sqrt`, `π`);
* square roots occurring inside otherwise-rational code are abstracted as
  an explicit function parameter when no verified property depends on
  their value;
* calls to the thread-local random number generator are made explicit
  parameters (the uniform draw in `[0,1)` that the generator would have
  produced);
* in-out reference parameters become explicit inputs/outputs.

Each claim theorem cites the C++ entity it is about in its doc comment.
-/

/-- Component triple mirroring `glm::vec3` (and `glm::dvec3`), parametrised
by the scalar type used for the idealisation. -/
structure Vec3 (α : Type) where
  x : α
  y : α
  z : α
deriving DecidableEq, Repr

namespace Vec3

variable {α : Type} [LinearOrderedField α]

/-- Componentwise addition, `glm` operator `+`. -/
def add (a b : Vec3 α) : Vec3 α := ⟨a.x + b.x, a.y + b.y, a.z + b.z⟩

/-- Componentwise subtraction, `glm` operator `-`. -/
def sub (a b : Vec3 α) : Vec3 α := ⟨a.x - b.x, a.y - b.y, a.z - b.z⟩

/-- Componentwise product, `glm` operator `*` on two vectors. -/
def mul (a b : Vec3 α) : Vec3 α := ⟨a.x * b.x, a.y * b.y, a.z * b.z⟩

/-- Scalar multiple, `glm` scalar `*` vector. -/
def smul (s : α) (a : Vec3 α) : Vec3 α := ⟨s * a.x, s * a.y, s * a.z⟩

/-- Componentwise reciprocal: the cached `1.0f / dir` of the `Ray`
constructor (`src/core/ray.hpp`). -/
def inv (a : Vec3 α) : Vec3 α := ⟨a.x⁻¹, a.y⁻¹, a.z⁻¹⟩

/-- Componentwise minimum, `glm::min`. -/
def cmin (a b : Vec3 α) : Vec3 α := ⟨min a.x b.x, min a.y b.y, min a.z b.z⟩

/-- Componentwise maximum, `glm::max`. -/
def cmax (a b : Vec3 α) : Vec3 α := ⟨max a.x b.x, max a.y b.y, max a.z b.z⟩

/-- Dot product, `glm::dot`. -/
def dot (a b : Vec3 α) : α := a.x * b.x + a.y * b.y + a.z * b.z

/-- Component lookup by axis index, `v[axis]` in glm. -/
def nth (a : Vec3 α) : Fin 3 → α
  | 0 => a.x
  | 1 => a.y
  | 2 => a.z

end Vec3

/-- Point along a ray: `Ray::at`, `orig + t * dir` (`src/core/ray.hpp`).
The ray is carried as the pair (origin, direction); the cached inverse
direction of the C++ `Ray` is recomputed where used. -/
def rayAt {α : Type} [LinearOrderedField α] (o d : Vec3 α) (t : α) : Vec3 α :=
  ⟨o.x + t * d.x, o.y + t * d.y, o.z + t * d.z⟩

/-- Axis-aligned bounding box, `class AABB` of `src/accel/AABB.hpp`:
the pair (`bounds_min`, `bounds_max`). -/
structure Aabb where
  mn : Vec3 ℚ
  mx : Vec3 ℚ
deriving DecidableEq, Repr

/-- Slab test `AABB::hit` (`src/accel/AABB.hpp` lines 26-46), translated
literally: `t0 = (min - O) * invD`, `t1 = (max - O) * invD` componentwise,
`t_enter = max(t_min, smaller slab parameters)`,
`t_exit = min(t_max, bigger slab parameters)`, hit iff `t_enter < t_exit`.
The cached `r.inv_direction()` is `Vec3.inv d`. -/
def aabbHit (b : Aabb) (o d : Vec3 ℚ) (tmin tmax : ℚ) : Bool :=
  let invD := Vec3.inv d
  let t0 := Vec3.mul (Vec3.sub b.mn o) invD
  let t1 := Vec3.mul (Vec3.sub b.mx o) invD
  let tSmaller := Vec3.cmin t0 t1
  let tBigger := Vec3.cmax t0 t1
  let tEnter := max tmin (max tSmaller.x (max tSmaller.y tSmaller.z))
  let tExit := min tmax (min tBigger.x (min tBigger.y tBigger.z))
  decide (tEnter < tExit)

/-- Strict (interior) membership of a point in a box, as a Boolean so that
concrete instances can be decided by evaluation. -/
def insideOpen (b : Aabb) (p : Vec3 ℚ) : Bool :=
  decide (b.mn.x < p.x) && decide (p.x < b.mx.x) &&
  decide (b.mn.y < p.y) && decide (p.y < b.mx.y) &&
  decide (b.mn.z < p.z) && decide (p.z < b.mx.z)

/-- One axis of the slab test: for a nonzero direction component the open
slab parameter window is exactly the open coordinate window. -/
lemma slab_axis_iff {d o mn mx t : ℚ} (hd : d ≠ 0) (hmn : mn ≤ mx) :
    (min ((mn - o) * d⁻¹) ((mx - o) * d⁻¹) < t ∧
      t < max ((mn - o) * d⁻¹) ((mx - o) * d⁻¹))
    ↔ (mn < o + t * d ∧ o + t * d < mx) := by
  rcases hd.lt_or_lt with hneg | hpos
  · have hinv : d⁻¹ < 0 := inv_lt_zero.mpr hneg
    have hle : (mx - o) * d⁻¹ ≤ (mn - o) * d⁻¹ := by
      apply mul_le_mul_of_nonpos_right (by linarith) (le_of_lt hinv)
    rw [min_eq_right hle, max_eq_left hle, ← div_eq_mul_inv, ← div_eq_mul_inv,
      div_lt_iff_of_neg hneg, lt_div_iff_of_neg hneg]
    constructor
    · rintro ⟨h1, h2⟩; constructor <;> linarith
    · rintro ⟨h1, h2⟩; constructor <;> linarith
  · have hinv : 0 < d⁻¹ := inv_pos.mpr hpos
    have hle : (mn - o) * d⁻¹ ≤ (mx - o) * d⁻¹ := by
      apply mul_le_mul_of_nonneg_right (by linarith) (le_of_lt hinv)
    rw [min_eq_left hle, max_eq_right hle, ← div_eq_mul_inv, ← div_eq_mul_inv,
      div_lt_iff hpos, lt_div_iff hpos]
    constructor
    · rintro ⟨h1, h2⟩; constructor <;> linarith
    · rintro ⟨h1, h2⟩; constructor <;> linarith

/-- Claim C2. `AABB::hit` (`src/accel/AABB.hpp`) is exactly the predicate
"some ray parameter `t` strictly between `t_min` and `t_max` puts `r.at(t)`
inside the box", for every ray whose direction components are all nonzero
(so the cached inverse is finite) and every box with `min ≤ max`
componentwise.  "Within the box" is interior membership: the code reports a
hit iff `t_enter < t_exit` strictly, so a ray that only grazes a face or an
edge of the box is a miss.  The computation of `t_enter` as the maximum of
`t_min` and the smaller slab parameters and of `t_exit` as the minimum of
`t_max` and the bigger ones is the literal content of the definition
`aabbHit`, division-free except for the cached reciprocal direction. -/
theorem aabb_hit_iff_exists_interior_param
    (b : Aabb) (o d : Vec3 ℚ) (tmin tmax : ℚ)
    (hdx : d.x ≠ 0) (hdy : d.y ≠ 0) (hdz : d.z ≠ 0)
    (hbx : b.mn.x ≤ b.mx.x) (hby : b.mn.y ≤ b.mx.y) (hbz : b.mn.z ≤ b.mx.z) :
    aabbHit b o d tmin tmax = true ↔
      ∃ t : ℚ, tmin < t ∧ t < tmax ∧ insideOpen b (rayAt o d t) = true := by
  have hx := fun t => @slab_axis_iff d.x o.x b.mn.x b.mx.x t hdx hbx
  have hy := fun t => @slab_axis_iff d.y o.y b.mn.y b.mx.y t hdy hby
  have hz := fun t => @slab_axis_iff d.z o.z b.mn.z b.mx.z t hdz hbz
  simp only [aabbHit, insideOpen, rayAt, Vec3.inv, Vec3.mul, Vec3.sub,
    Vec3.cmin, Vec3.cmax, Bool.and_eq_true, decide_eq_true_eq]
  constructor
  · intro h
    obtain ⟨t, ht1, ht2⟩ := exists_between h
    have htmin : tmin < t := lt_of_le_of_lt (le_max_left _ _) ht1
    have hsx : min ((b.mn.x - o.x) * d.x⁻¹) ((b.mx.x - o.x) * d.x⁻¹) < t :=
      lt_of_le_of_lt (le_trans (le_max_left _ _) (le_max_right tmin _)) ht1
    have hsy : min ((b.mn.y - o.y) * d.y⁻¹) ((b.mx.y - o.y) * d.y⁻¹) < t :=
      lt_of_le_of_lt (le_trans (le_trans (le_max_left _ _) (le_max_right _ _))
        (le_max_right tmin _)) ht1
    have hsz : min ((b.mn.z - o.z) * d.z⁻¹) ((b.mx.z - o.z) * d.z⁻¹) < t :=
      lt_of_le_of_lt (le_trans (le_trans (le_max_right _ _) (le_max_right _ _))
        (le_max_right tmin _)) ht1
    have htmax : t < tmax := lt_of_lt_of_le ht2 (min_le_left _ _)
    have hbx2 : t < max ((b.mn.x - o.x) * d.x⁻¹) ((b.mx.x - o.x) * d.x⁻¹) :=
      lt_of_lt_of_le ht2 (le_trans (min_le_right tmax _) (min_le_left _ _))
    have hby2 : t < max ((b.mn.y - o.y) * d.y⁻¹) ((b.mx.y - o.y) * d.y⁻¹) :=
      lt_of_lt_of_le ht2 (le_trans (min_le_right tmax _)
        (le_trans (min_le_right _ _) (min_le_left _ _)))
    have hbz2 : t < max ((b.mn.z - o.z) * d.z⁻¹) ((b.mx.z - o.z) * d.z⁻¹) :=
      lt_of_lt_of_le ht2 (le_trans (min_le_right tmax _)
        (le_trans (min_le_right _ _) (min_le_right _ _)))
    obtain ⟨hx1, hx2⟩ := (hx t).mp ⟨hsx, hbx2⟩
    obtain ⟨hy1, hy2⟩ := (hy t).mp ⟨hsy, hby2⟩
    obtain ⟨hz1, hz2⟩ := (hz t).mp ⟨hsz, hbz2⟩
    exact ⟨t, htmin, htmax, ⟨⟨⟨⟨⟨hx1, hx2⟩, hy1⟩, hy2⟩, hz1⟩, hz2⟩⟩
  · rintro ⟨t, htmin, htmax, ⟨⟨⟨⟨⟨hx1, hx2⟩, hy1⟩, hy2⟩, hz1⟩, hz2⟩⟩
    obtain ⟨hsx, hbx2⟩ := (hx t).mpr ⟨hx1, hx2⟩
    obtain ⟨hsy, hby2⟩ := (hy t).mpr ⟨hy1, hy2⟩
    obtain ⟨hsz, hbz2⟩ := (hz t).mpr ⟨hz1, hz2⟩
    have henter : max tmin (max (min ((b.mn.x - o.x) * d.x⁻¹) ((b.mx.x - o.x) * d.x⁻¹))
        (max (min ((b.mn.y - o.y) * d.y⁻¹) ((b.mx.y - o.y) * d.y⁻¹))
          (min ((b.mn.z - o.z) * d.z⁻¹) ((b.mx.z - o.z) * d.z⁻¹)))) < t := by
      apply max_lt htmin (max_lt hsx (max_lt hsy hsz))
    have hexit : t < min tmax (min (max ((b.mn.x - o.x) * d.x⁻¹) ((b.mx.x - o.x) * d.x⁻¹))
        (min (max ((b.mn.y - o.y) * d.y⁻¹) ((b.mx.y - o.y) * d.y⁻¹))
          (max ((b.mn.z - o.z) * d.z⁻¹) ((b.mx.z - o.z) * d.z⁻¹)))) := by
      apply lt_min htmax (lt_min hbx2 (lt_min hby2 hbz2))
    exact lt_trans henter hexit

/-- Witness for claim C2 at a concrete box and ray. -/
theorem aabb_hit_iff_exists_interior_param_witness :
    aabbHit ⟨⟨0, 0, 0⟩, ⟨1, 1, 1⟩⟩ ⟨-1, -1, -1⟩ ⟨1, 1, 1⟩ 0 10 = true ↔
      ∃ t : ℚ, 0 < t ∧ t < 10 ∧
        insideOpen ⟨⟨0, 0, 0⟩, ⟨1, 1, 1⟩⟩ (rayAt ⟨-1, -1, -1⟩ ⟨1, 1, 1⟩ t) = true :=
  aabb_hit_iff_exists_interior_param ⟨⟨0, 0, 0⟩, ⟨1, 1, 1⟩⟩ ⟨-1, -1, -1⟩ ⟨1, 1, 1⟩ 0 10
    (by decide) (by decide) (by decide) (by decide) (by decide) (by decide)

/-!
Distribution1D (`src/core/distribution.hpp`).

The constructor builds `cdf[0] = 0`, `cdf[i+1] = cdf[i] + func[i]/n`, sets
`func_int = cdf[n]`, then either replaces the CDF by the linear ramp
`i / n` (when `func_int == 0`) or divides every entry by `func_int`.
Since the loop only normalises indices `1..n` and `cdf[0] = 0` is a fixed
point of both branches, the closed forms below agree with the loop at
every index.
-/

/-- Unnormalised CDF entry `i` of the constructor loop:
the partial sum `Σ_{j<i} func[j] / n`. -/
def cdfPre (f : List ℚ) (i : ℕ) : ℚ :=
  ((f.take i).sum) / (f.length : ℚ)

/-- The `func_int` member: the last unnormalised CDF entry. -/
def funcInt (f : List ℚ) : ℚ :=
  cdfPre f f.length

/-- Final CDF entry `i` after the zero-integral fixup or the
normalisation division. -/
def cdfVal (f : List ℚ) (i : ℕ) : ℚ :=
  if funcInt f = 0 then (i : ℚ) / (f.length : ℚ)
  else cdfPre f i / funcInt f

/-- The stored `cdf` vector of `Distribution1D`: entries `0..n`. -/
def cdfList (f : List ℚ) : List ℚ :=
  (List.range (f.length + 1)).map (cdfVal f)

lemma cdfList_length (f : List ℚ) : (cdfList f).length = f.length + 1 := by
  simp [cdfList]

lemma cdfList_getD (f : List ℚ) (i : ℕ) (h : i < f.length + 1) :
    (cdfList f).getD i 0 = cdfVal f i := by
  simp [cdfList, List.getD, List.getElem?_map, List.getElem?_range, h]

lemma sum_take_succ (f : List ℚ) (i : ℕ) (h : i < f.length) :
    (f.take (i + 1)).sum = (f.take i).sum + f.getD i 0 := by
  induction f generalizing i with
  | nil => simp at h
  | cons a l ih =>
    cases i with
    | zero => simp
    | succ j =>
      simp only [List.take_succ_cons, List.sum_cons, List.getD_cons_succ]
      rw [ih j (by simpa using h)]
      ring

lemma take_sum_nonneg (f : List ℚ) (hf : ∀ x ∈ f, 0 ≤ x) (i : ℕ) :
    0 ≤ (f.take i).sum := by
  apply List.sum_nonneg
  intro x hx
  exact hf x (List.mem_of_mem_take hx)

lemma getD_nonneg (f : List ℚ) (hf : ∀ x ∈ f, 0 ≤ x) (i : ℕ) :
    0 ≤ f.getD i 0 := by
  by_cases h : i < f.length
  · have : f.getD i 0 = f[i] := by
      simp [List.getD, List.getElem?_eq_getElem h]
    rw [this]
    exact hf _ (List.getElem_mem h)
  · rw [List.getD_eq_default _ _ (Nat.le_of_not_lt h)]

lemma cdfPre_mono (f : List ℚ) (hf : ∀ x ∈ f, 0 ≤ x) (i : ℕ) (h : i < f.length) :
    cdfPre f i ≤ cdfPre f (i + 1) := by
  have hn : (0 : ℚ) < (f.length : ℚ) := by
    have : 0 < f.length := Nat.lt_of_le_of_lt (Nat.zero_le i) h
    exact_mod_cast this
  have hstep := sum_take_succ f i h
  have hfi : 0 ≤ f.getD i 0 := getD_nonneg f hf i
  unfold cdfPre
  rw [hstep, div_eq_mul_inv, div_eq_mul_inv]
  apply mul_le_mul_of_nonneg_right (by linarith) (inv_nonneg.mpr (le_of_lt hn))

lemma cdfPre_nonneg (f : List ℚ) (hf : ∀ x ∈ f, 0 ≤ x) (i : ℕ) :
    0 ≤ cdfPre f i := by
  unfold cdfPre
  apply div_nonneg (take_sum_nonneg f hf i)
  exact_mod_cast Nat.zero_le _

lemma funcInt_pos (f : List ℚ) (hf : ∀ x ∈ f, 0 ≤ x) (h : funcInt f ≠ 0) :
    0 < funcInt f :=
  lt_of_le_of_ne (cdfPre_nonneg f hf _) (Ne.symm h)

lemma cdfVal_zero (f : List ℚ) : cdfVal f 0 = 0 := by
  unfold cdfVal cdfPre
  by_cases h : funcInt f = 0 <;> simp [h]

lemma cdfVal_last (f : List ℚ) (hn : 1 ≤ f.length) : cdfVal f f.length = 1 := by
  have hlen : ((f.length : ℚ)) ≠ 0 := by
    have : 0 < f.length := hn
    exact_mod_cast Nat.pos_iff_ne_zero.mp this
  unfold cdfVal
  by_cases h : funcInt f = 0
  · simp [h, div_self hlen]
  · rw [if_neg h]
    have hp : cdfPre f f.length = funcInt f := rfl
    rw [hp, div_self h]

lemma cdfVal_mono (f : List ℚ) (hf : ∀ x ∈ f, 0 ≤ x) (i : ℕ) (h : i < f.length) :
    cdfVal f i ≤ cdfVal f (i + 1) := by
  unfold cdfVal
  by_cases hz : funcInt f = 0
  · simp only [hz, if_true]
    have hn : (0 : ℚ) ≤ (f.length : ℚ)⁻¹ := by
      apply inv_nonneg.mpr
      exact_mod_cast Nat.zero_le _
    rw [div_eq_mul_inv, div_eq_mul_inv]
    apply mul_le_mul_of_nonneg_right ?hc hn
    case hc => exact_mod_cast Nat.le_succ i
  · simp only [hz, if_false]
    have hpos := funcInt_pos f hf hz
    rw [div_eq_mul_inv, div_eq_mul_inv]
    apply mul_le_mul_of_nonneg_right (cdfPre_mono f hf i h)
      (inv_nonneg.mpr (le_of_lt hpos))

/-- Claim C6. The CDF stored by the `Distribution1D` constructor
(`src/core/distribution.hpp` lines 16-27) for `n ≥ 1` non-negative values:
it has `n + 1` entries, starts at `0`, ends at `1`, is monotonically
non-decreasing, and when the integral of `f` is zero it is the exact
linear ramp `cdf[i] = i / n` (so discrete sampling still returns a
uniformly distributed index). -/
theorem distribution1d_cdf_invariants (f : List ℚ)
    (hn : 1 ≤ f.length) (hf : ∀ x ∈ f, 0 ≤ x) :
    (cdfList f).length = f.length + 1 ∧
    (cdfList f).getD 0 0 = 0 ∧
    (cdfList f).getD f.length 0 = 1 ∧
    (∀ i, i < f.length → (cdfList f).getD i 0 ≤ (cdfList f).getD (i + 1) 0) ∧
    (funcInt f = 0 → ∀ i, i ≤ f.length →
      (cdfList f).getD i 0 = (i : ℚ) / (f.length : ℚ)) := by
  refine ⟨cdfList_length f, ?z, ?o, ?m, ?lin⟩
  case z =>
    rw [cdfList_getD f 0 (Nat.succ_le_succ (Nat.zero_le _))]
    exact cdfVal_zero f
  case o =>
    rw [cdfList_getD f f.length (Nat.lt_succ_self _)]
    exact cdfVal_last f hn
  case m =>
    intro i hi
    rw [cdfList_getD f i (Nat.lt_succ_of_lt hi),
      cdfList_getD f (i + 1) (Nat.succ_lt_succ hi)]
    exact cdfVal_mono f hf i hi
  case lin =>
    intro hz i hi
    rw [cdfList_getD f i (Nat.lt_succ_of_le hi)]
    unfold cdfVal
    simp [hz]

/-- Witness for claim C6 on the concrete value list `[1, 2]`. -/
theorem distribution1d_cdf_invariants_witness :
    (cdfList [1, 2]).length = 2 + 1 ∧
    (cdfList [1, 2]).getD 0 0 = 0 ∧
    (cdfList [1, 2]).getD 2 0 = 1 ∧
    (∀ i, i < 2 → (cdfList [1, 2]).getD i 0 ≤ (cdfList [1, 2]).getD (i + 1) 0) ∧
    (funcInt [1, 2] = 0 → ∀ i, i ≤ 2 →
      (cdfList [1, 2]).getD i 0 = (i : ℚ) / 2) := by
  have h := distribution1d_cdf_invariants [1, 2] (by decide)
    (by intro x hx; fin_cases hx <;> norm_num)
  simpa using h 

/-!
`Distribution1D::sample_discrete` (`src/core/distribution.hpp` lines
58-66).  `std::upper_bound` on the sorted CDF returns the first entry
strictly greater than `u`; on a sorted list a left-to-right scan computes
the same index, which is how it is rendered below.  `std::max(0, idx - 1)`
coincides with saturating natural subtraction `idx - 1`.
-/

/-- Index of the first list entry strictly greater than `u`
(`std::upper_bound` result as an offset from `begin()`). -/
def upperBound : List ℚ → ℚ → ℕ
  | [], _ => 0
  | x :: xs, u => if u < x then 0 else upperBound xs u + 1

/-- The body of `Distribution1D::sample_discrete`: returns
(offset, pdf, remapped u). -/
def sampleDiscrete (f : List ℚ) (u : ℚ) : ℕ × ℚ × ℚ :=
  let cdf := cdfList f
  let offset := upperBound cdf u - 1
  let pdf := if 0 < funcInt f
    then f.getD offset 0 / (funcInt f * (f.length : ℚ))
    else 1 / (f.length : ℚ)
  let remapped := (u - cdf.getD offset 0) / (cdf.getD (offset + 1) 0 - cdf.getD offset 0)
  (offset, pdf, remapped)

lemma upperBound_le_length (l : List ℚ) (u : ℚ) : upperBound l u ≤ l.length := by
  induction l with
  | nil => simp [upperBound]
  | cons x xs ih =>
    unfold upperBound
    by_cases h : u < x
    · simp [h]
    · simp only [h, if_false, List.length_cons]
      exact Nat.succ_le_succ ih

lemma upperBound_pos (l : List ℚ) (u : ℚ) (hne : l ≠ [])
    (h : l.getD 0 0 ≤ u) : 1 ≤ upperBound l u := by
  cases l with
  | nil => exact absurd rfl hne
  | cons x xs =>
    unfold upperBound
    simp only [List.getD_cons_zero] at h
    rw [if_neg (not_lt.mpr h)]
    exact Nat.succ_le_succ (Nat.zero_le _)

lemma upperBound_below (l : List ℚ) (u : ℚ) :
    ∀ j, j < upperBound l u → l.getD j 0 ≤ u := by
  induction l with
  | nil => intro j hj; simp [upperBound] at hj
  | cons x xs ih =>
    intro j hj
    unfold upperBound at hj
    by_cases h : u < x
    · simp [h] at hj
    · rw [if_neg h] at hj
      cases j with
      | zero => simpa using not_lt.mp h
      | succ k =>
        rw [List.getD_cons_succ]
        exact ih k (Nat.lt_of_succ_lt_succ hj)

lemma upperBound_at (l : List ℚ) (u : ℚ) (h : upperBound l u < l.length) :
    u < l.getD (upperBound l u) 0 := by
  induction l with
  | nil => simp at h
  | cons x xs ih =>
    unfold upperBound at h ⊢
    by_cases hx : u < x
    · simpa [hx] using hx
    · rw [if_neg hx] at h ⊢
      rw [List.getD_cons_succ]
      exact ih (Nat.lt_of_succ_lt_succ h)

lemma upperBound_on_cdf (f : List ℚ) (u : ℚ)
    (hn : 1 ≤ f.length) (hf : ∀ x ∈ f, 0 ≤ x) (hu0 : 0 ≤ u) (hu1 : u < 1) :
    1 ≤ upperBound (cdfList f) u ∧ upperBound (cdfList f) u ≤ f.length := by
  constructor
  · apply upperBound_pos
    · intro hemp
      have := cdfList_length f
      rw [hemp] at this
      simp at this
    · rw [cdfList_getD f 0 (Nat.succ_le_succ (Nat.zero_le _)), cdfVal_zero]
      exact hu0
  · by_contra hgt
    push_neg at hgt
    have hbound : f.length < upperBound (cdfList f) u := hgt
    have hone : (cdfList f).getD f.length 0 ≤ u :=
      upperBound_below (cdfList f) u f.length hbound
    rw [cdfList_getD f f.length (Nat.lt_succ_self _), cdfVal_last f hn] at hone
    exact absurd (lt_of_lt_of_le hu1 hone) (lt_irrefl u)

/-- Claim C10. In `Distribution1D::sample_discrete`
(`src/core/distribution.hpp` lines 58-66), for a distribution built from
`n ≥ 1` non-negative values and any `u ∈ [0, 1)`: the offset selected via
`std::upper_bound` satisfies `cdf[offset] ≤ u < cdf[offset+1]` with
`offset + 1 ≤ n` (so the access `cdf[offset+1]` is in bounds — the
out-of-bounds read that `u = 1` would provoke cannot happen), the
unguarded division divides by the strictly positive segment width
`cdf[offset+1] - cdf[offset]`, and the returned remapped `u` lies
in `[0, 1)`. -/
theorem sample_discrete_offset_safe (f : List ℚ) (u : ℚ)
    (hn : 1 ≤ f.length) (hf : ∀ x ∈ f, 0 ≤ x) (hu0 : 0 ≤ u) (hu1 : u < 1) :
    (sampleDiscrete f u).1 + 1 ≤ f.length ∧
    (cdfList f).getD (sampleDiscrete f u).1 0 ≤ u ∧
    u < (cdfList f).getD ((sampleDiscrete f u).1 + 1) 0 ∧
    0 < (cdfList f).getD ((sampleDiscrete f u).1 + 1) 0 -
        (cdfList f).getD (sampleDiscrete f u).1 0 ∧
    0 ≤ (sampleDiscrete f u).2.2 ∧ (sampleDiscrete f u).2.2 < 1 := by
  obtain ⟨hub1, hubn⟩ := upperBound_on_cdf f u hn hf hu0 hu1
  have hoff : (sampleDiscrete f u).1 = upperBound (cdfList f) u - 1 := rfl
  have hsucc : (sampleDiscrete f u).1 + 1 = upperBound (cdfList f) u := by
    rw [hoff]
    exact Nat.succ_pred_eq_of_pos hub1
  have hin : (sampleDiscrete f u).1 + 1 ≤ f.length := by
    rw [hsucc]; exact hubn
  have hlow : (cdfList f).getD (sampleDiscrete f u).1 0 ≤ u := by
    apply upperBound_below
    rw [hoff]
    exact Nat.sub_lt (Nat.lt_of_lt_of_le Nat.zero_lt_one hub1) Nat.zero_lt_one
  have hhigh : u < (cdfList f).getD ((sampleDiscrete f u).1 + 1) 0 := by
    rw [hsucc]
    apply upperBound_at
    rw [cdfList_length]
    exact Nat.lt_succ_of_le hubn
  have hwidth : 0 < (cdfList f).getD ((sampleDiscrete f u).1 + 1) 0 -
      (cdfList f).getD (sampleDiscrete f u).1 0 := by linarith
  have hremap : (sampleDiscrete f u).2.2 =
      (u - (cdfList f).getD (sampleDiscrete f u).1 0) /
        ((cdfList f).getD ((sampleDiscrete f u).1 + 1) 0 -
          (cdfList f).getD (sampleDiscrete f u).1 0) := rfl
  refine ⟨hin, hlow, hhigh, hwidth, ?nn, ?lt1⟩
  case nn =>
    rw [hremap]
    exact div_nonneg (by linarith) (le_of_lt hwidth)
  case lt1 =>
    rw [hremap]
    rw [div_lt_one hwidth]
    linarith

/-- Witness for claim C10 on the distribution `[1, 1]` at `u = 3/4`. -/
theorem sample_discrete_offset_safe_witness :
    (sampleDiscrete [1, 1] (3/4)).1 + 1 ≤ 2 ∧
    (cdfList [1, 1]).getD (sampleDiscrete [1, 1] (3/4)).1 0 ≤ 3/4 ∧
    (3/4 : ℚ) < (cdfList [1, 1]).getD ((sampleDiscrete [1, 1] (3/4)).1 + 1) 0 ∧
    0 < (cdfList [1, 1]).getD ((sampleDiscrete [1, 1] (3/4)).1 + 1) 0 -
        (cdfList [1, 1]).getD (sampleDiscrete [1, 1] (3/4)).1 0 ∧
    0 ≤ (sampleDiscrete [1, 1] (3/4)).2.2 ∧ (sampleDiscrete [1, 1] (3/4)).2.2 < 1 := by
  have h := sample_discrete_offset_safe [1, 1] (3/4) (by decide)
    (by intro x hx; fin_cases hx <;> norm_num) (by norm_num) (by norm_num)
  simpa using h

/-!
Sphere (`src/object/sphere.hpp`) and the diffuse area light wrapper
(`src/light/arealight.hpp`), idealised over `ℝ` (the code calls `sqrt`,
`sin`, `cos` and uses `PI`).  Randomness is passed in: the uniform draws
`r1, r2` and the uniformly sampled unit direction that
`random_unit_vector()` would have produced.
-/

namespace Vec3

/-- Cross product, `glm::cross`. -/
def cross {α : Type} [LinearOrderedField α] (a b : Vec3 α) : Vec3 α :=
  ⟨a.y * b.z - a.z * b.y, a.z * b.x - a.x * b.z, a.x * b.y - a.y * b.x⟩

/-- Componentwise division by a scalar, `glm` vector `/` scalar. -/
def divs {α : Type} [LinearOrderedField α] (a : Vec3 α) (s : α) : Vec3 α :=
  ⟨a.x / s, a.y / s, a.z / s⟩

end Vec3

/-- Luminance weights, `grayscale` of `src/core/utils.hpp`. -/
def grayscale {α : Type} [LinearOrderedField α] (c : Vec3 α) : α :=
  0.2126 * c.x + 0.7152 * c.y + 0.0722 * c.z

/-- The constant `EPSILON` of `src/core/utils.hpp` (`1e-6f`). -/
def EPSILON : ℚ := 1 / 1000000

/-- `glm::normalize` over `ℝ`: the vector divided by its length. -/
noncomputable def normalizeV (v : Vec3 ℝ) : Vec3 ℝ :=
  Vec3.divs v (Real.sqrt (Vec3.dot v v))

/-- The normal-only `Onb` constructor of `src/core/onb.hpp`, returning
the axes `(u, v, w)`. -/
noncomputable def onbFromNormal (n : Vec3 ℝ) : Vec3 ℝ × Vec3 ℝ × Vec3 ℝ :=
  let w := normalizeV n
  let a : Vec3 ℝ := if |w.x| > 1 - ((EPSILON : ℚ) : ℝ) then ⟨0, 1, 0⟩ else ⟨1, 0, 0⟩
  let v := normalizeV (Vec3.cross w a)
  let u := Vec3.cross w v
  (u, v, w)

/-- `Onb::local` applied to components `(a, b, c)`. -/
noncomputable def onbLocal (uvw : Vec3 ℝ × Vec3 ℝ × Vec3 ℝ) (a b c : ℝ) : Vec3 ℝ :=
  Vec3.add (Vec3.add (Vec3.smul a uvw.1) (Vec3.smul b uvw.2.1)) (Vec3.smul c uvw.2.2)

/-- `Sphere::intersect` (`src/object/sphere.hpp` lines 26-70) with the
upper bound `t_max = Infinity` (the only form `Sphere::pdf_value` uses),
projected onto the hit decision and the ray parameter: the filled
`HitRecord` fields other than `t` are not consumed by `pdf_value`.
Comparisons `root > t_max` are vacuously false at `t_max = Infinity`
and are dropped. -/
noncomputable def sphereIntersectInf (center : Vec3 ℝ) (radius : ℝ)
    (o d : Vec3 ℝ) (tmin : ℝ) : Option ℝ :=
  let oc := Vec3.sub o center
  let a := Vec3.dot d d
  let halfB := Vec3.dot oc d
  let c := Vec3.dot oc oc - radius * radius
  let disc := halfB * halfB - a * c
  if disc < 0 then none
  else
    let sqrtd := Real.sqrt disc
    let root1 := (-halfB - sqrtd) / a
    if root1 < tmin then
      let root2 := (-halfB + sqrtd) / a
      if root2 < tmin then none else some root2
    else some root1

/-- The constant `SHADOW_EPSILON` of `src/core/utils.hpp` (`1e-3f`). -/
def SHADOW_EPSILON : ℚ := 1 / 1000

/-- `Sphere::pdf_value` (`src/object/sphere.hpp` lines 86-111):
intersect along `Ray(o, v)` (whose constructor normalises `v`), return 0
on a miss, on an origin inside the sphere, or on a negligible solid
angle; otherwise the reciprocal of the subtended solid angle, computed by
a Taylor expansion when `sin²θ < 1e-4`. -/
noncomputable def spherePdfValue (center : Vec3 ℝ) (radius : ℝ)
    (o v : Vec3 ℝ) : ℝ :=
  match sphereIntersectInf center radius o (normalizeV v) ((SHADOW_EPSILON : ℚ) : ℝ) with
  | none => 0
  | some _ =>
    let direction := Vec3.sub center o
    let distSquared := Vec3.dot direction direction
    let radiusSquared := radius * radius
    if distSquared ≤ radiusSquared then 0
    else
      let sinThetaSq := radiusSquared / distSquared
      let solidAngle :=
        if sinThetaSq < 1 / 10000 then
          2 * Real.pi * (0.5 * sinThetaSq + 0.125 * sinThetaSq * sinThetaSq)
        else
          2 * Real.pi * (1 - Real.sqrt (1 - sinThetaSq))
      if solidAngle < ((EPSILON : ℚ) : ℝ) then 0 else 1 / solidAngle

/-- `Sphere::random_pointing_vector` (`src/object/sphere.hpp` lines
117-161): inside the sphere it returns `center - o`; otherwise it samples
the subtended cone using the uniform draws `r1, r2` and scales the unit
direction by the exact distance to the near intersection. -/
noncomputable def sphereRandomPointingVector (center : Vec3 ℝ) (radius : ℝ)
    (o : Vec3 ℝ) (r1 r2 : ℝ) : Vec3 ℝ :=
  let direction := Vec3.sub center o
  let distSquared := Vec3.dot direction direction
  if distSquared ≤ radius * radius then Vec3.sub center o
  else
    let uvw := onbFromNormal direction
    let cosThetaMax := Real.sqrt (1 - radius * radius / distSquared)
    let z := 1 + r2 * (cosThetaMax - 1)
    let phi := 2 * Real.pi * r1
    let sinTheta := Real.sqrt (1 - z * z)
    let x := Real.cos phi * sinTheta
    let y := Real.sin phi * sinTheta
    let rayDir := normalizeV (onbLocal uvw x y z)
    let oc := Vec3.sub o center
    let b := Vec3.dot oc rayDir
    let c := Vec3.dot oc oc - radius * radius
    let disc := b * b - c
    let t := -b - Real.sqrt (if disc > 0 then disc else 0)
    Vec3.smul t rayDir

/-- Claim C9. For an origin `o` with `|center - o|² ≤ radius²` (inside or
on the sphere), `Sphere::pdf_value` returns 0 for every direction, and
`Sphere::random_pointing_vector` returns `center - o` — the vector from
the origin point to the center — for every pair of random draws; neither
path divides by the degenerate solid angle (the inside test precedes the
solid-angle computation in both functions). -/
theorem sphere_inside_origin_degenerate (center : Vec3 ℝ) (radius : ℝ)
    (o v : Vec3 ℝ) (r1 r2 : ℝ)
    (h : Vec3.dot (Vec3.sub center o) (Vec3.sub center o) ≤ radius * radius) :
    spherePdfValue center radius o v = 0 ∧
    sphereRandomPointingVector center radius o r1 r2 = Vec3.sub center o := by
  constructor
  · unfold spherePdfValue
    cases sphereIntersectInf center radius o (normalizeV v) ((SHADOW_EPSILON : ℚ) : ℝ) with
    | none => rfl
    | some t => simp only [if_pos h]
  · unfold sphereRandomPointingVector
    simp only [if_pos h]

/-- Witness for claim C9: the origin `(1,0,0)` inside the sphere of
radius 2 about the origin. -/
theorem sphere_inside_origin_degenerate_witness :
    spherePdfValue ⟨0, 0, 0⟩ 2 ⟨1, 0, 0⟩ ⟨0, 1, 0⟩ = 0 ∧
    sphereRandomPointingVector ⟨0, 0, 0⟩ 2 ⟨1, 0, 0⟩ 0 0 =
      Vec3.sub ⟨0, 0, 0⟩ ⟨1, 0, 0⟩ :=
  sphere_inside_origin_degenerate ⟨0, 0, 0⟩ 2 ⟨1, 0, 0⟩ ⟨0, 1, 0⟩ 0 0
    (by norm_num [Vec3.dot, Vec3.sub])

/-- `Sphere::sample_surface` (`src/object/sphere.hpp` lines 167-180),
with the result of `random_unit_vector()` passed in as `dir`: position
`center + radius * dir`, normal `dir`, and third output
`pdf_area = 1 / (4 * PI * radius * radius)` — the reciprocal of the area,
per the base-class contract `Object::sample_surface`
(`src/object/object_utils.hpp` lines 59-67, parameter `pdf_area`). -/
noncomputable def sphereSampleSurface (center : Vec3 ℝ) (radius : ℝ)
    (dir : Vec3 ℝ) : Vec3 ℝ × Vec3 ℝ × ℝ :=
  (Vec3.add center (Vec3.smul radius dir), dir,
    1 / (4 * Real.pi * radius * radius))

/-- Surface area of a sphere, `4 * PI * r²` — the quantity the
specification means by "the object's surface area". -/
noncomputable def sphereArea (radius : ℝ) : ℝ :=
  4 * Real.pi * radius * radius

/-- The `DiffuseAreaLight` constructor (`src/light/arealight.hpp` lines
18-31): one initial `sample_surface` call, then eight calls whose emitted
values are accumulated; `est_power = grayscale(accum/8) * area * PI`,
where `area` holds the third output of the last `sample_surface` call.
`sample i` is the outcome of the `i`-th call (`i = 0` is the initial
call, `i = 1..8` the loop). -/
noncomputable def diffuseAreaLightPower (sample : ℕ → Vec3 ℝ × Vec3 ℝ × ℝ)
    (emitted : Vec3 ℝ → Vec3 ℝ) : ℝ :=
  let accum := ((List.range 8).map (fun i => emitted (sample (i + 1)).1)).foldl
    Vec3.add ⟨0, 0, 0⟩
  let area := (sample 8).2.2
  let avg := Vec3.divs accum 8
  grayscale avg * area * Real.pi

/-- Claim C4 (code bug).  The claim — power estimate =
`grayscale(mean emission) * area * π` — matches the constructor's intent
(its comment reads `Flux (Phi) = Le * Area * PI`) and matches every other
primitive, whose `sample_surface` writes the actual area into the third
output (triangle, disk, cone, mesh, moving sphere).  `Sphere`, however,
writes `1 / (4πr²)` into that output, so a `DiffuseAreaLight` wrapping a
unit sphere of constant unit emission gets `est_power = 1/4` instead of
the claimed `grayscale(mean emission) * area * π = 4π²`. -/
theorem arealight_power_sphere_bug :
    diffuseAreaLightPower (fun _ => sphereSampleSurface ⟨0, 0, 0⟩ 1 ⟨1, 0, 0⟩)
        (fun _ => ⟨1, 1, 1⟩) = 1 / 4 ∧
    diffuseAreaLightPower (fun _ => sphereSampleSurface ⟨0, 0, 0⟩ 1 ⟨1, 0, 0⟩)
        (fun _ => ⟨1, 1, 1⟩) ≠
      grayscale (⟨1, 1, 1⟩ : Vec3 ℝ) * sphereArea 1 * Real.pi := by
  have hval : diffuseAreaLightPower
      (fun _ => sphereSampleSurface ⟨0, 0, 0⟩ 1 ⟨1, 0, 0⟩)
      (fun _ => ⟨1, 1, 1⟩) = 1 / 4 := by
    unfold diffuseAreaLightPower sphereSampleSurface grayscale
    have hrange : List.range 8 = [0, 1, 2, 3, 4, 5, 6, 7] := by decide
    rw [hrange]
    simp only [List.map, List.foldl, Vec3.add, Vec3.divs]
    have hpi := Real.pi_ne_zero
    field_simp
    ring
  refine ⟨hval, ?ne⟩
  rw [hval]
  unfold grayscale sphereArea
  intro hcontra
  have hpi3 := Real.pi_gt_three
  nlinarith [Real.pi_gt_three]

/-!
Sphere UV mapping (`src/core/utils.hpp`, `get_sphere_uv` lines 148-158
and `uv_to_sphere` lines 168-183).  `std::atan2(y, x)` is the argument of
the complex number `x + y·i`, valued in `(-π, π]` (both return 0 at the
origin).
-/

/-- `std::atan2` rendered as the complex argument. -/
noncomputable def atan2R (y x : ℝ) : ℝ :=
  Complex.arg ⟨x, y⟩

/-- `get_sphere_uv`: `theta = acos(-p.y)`, `phi = atan2(-p.z, p.x) + PI`,
returns `(phi / 2π, theta / π)`. -/
noncomputable def getSphereUv (p : Vec3 ℝ) : ℝ × ℝ :=
  let theta := Real.arccos (-p.y)
  let phi := atan2R (-p.z) p.x + Real.pi
  (phi / (2 * Real.pi), theta / Real.pi)

/-- `uv_to_sphere`: `theta = v·π`, `phi = u·2π`, returns
`(-sinθ·cosφ, -cosθ, sinθ·sinφ)`. -/
noncomputable def uvToSphere (u v : ℝ) : Vec3 ℝ :=
  let theta := v * Real.pi
  let phi := u * 2 * Real.pi
  let sinTheta := Real.sin theta
  let cosTheta := Real.cos theta
  let sinPhi := Real.sin phi
  let cosPhi := Real.cos phi
  ⟨-sinTheta * cosPhi, -cosTheta, sinTheta * sinPhi⟩

/-- Claim C8. For every unit vector not at the poles (`|y| < 1`),
`uv_to_sphere(get_sphere_uv(v))` recovers `v` — exactly, in the real
idealisation, hence a fortiori within any ε — and the UV pair lies in
`[0,1] × [0,1]`. -/
theorem sphere_uv_roundtrip (p : Vec3 ℝ)
    (hunit : p.x * p.x + p.y * p.y + p.z * p.z = 1) (hy : |p.y| < 1) :
    uvToSphere (getSphereUv p).1 (getSphereUv p).2 = p ∧
    0 ≤ (getSphereUv p).1 ∧ (getSphereUv p).1 ≤ 1 ∧
    0 ≤ (getSphereUv p).2 ∧ (getSphereUv p).2 ≤ 1 := by
  obtain ⟨hy1, hy2⟩ := abs_lt.mp hy
  have hyy : p.y * p.y < 1 := by nlinarith
  have hxz : p.x * p.x + p.z * p.z = 1 - p.y * p.y := by linarith
  have hxzpos : 0 < p.x * p.x + p.z * p.z := by nlinarith
  have hw : (⟨p.x, -p.z⟩ : ℂ) ≠ 0 := by
    intro h0
    have hre : p.x = 0 := by
      have := congrArg Complex.re h0
      simpa using this
    have him : p.z = 0 := by
      have := congrArg Complex.im h0
      simpa using this
    rw [hre, him] at hxzpos
    simp at hxzpos
  have habs : Complex.abs ⟨p.x, -p.z⟩ = Real.sqrt (1 - p.y * p.y) := by
    rw [Complex.abs_apply, Complex.normSq_mk]
    congr 1
    linarith
  have hs : 0 < Real.sqrt (1 - p.y * p.y) := Real.sqrt_pos.mpr (by linarith)
  have hcosarg : Real.cos (Complex.arg ⟨p.x, -p.z⟩) =
      p.x / Real.sqrt (1 - p.y * p.y) := by
    rw [← habs]
    exact Complex.cos_arg hw
  have hsinarg : Real.sin (Complex.arg ⟨p.x, -p.z⟩) =
      -p.z / Real.sqrt (1 - p.y * p.y) := by
    rw [← habs]
    exact Complex.sin_arg _
  have hpi : (Real.pi : ℝ) ≠ 0 := Real.pi_ne_zero
  have h2pi : (2 * Real.pi : ℝ) ≠ 0 := by positivity
  have hthe : (getSphereUv p).2 * Real.pi = Real.arccos (-p.y) := by
    simp only [getSphereUv]
    field_simp
  have hphi : (getSphereUv p).1 * 2 * Real.pi = atan2R (-p.z) p.x + Real.pi := by
    simp only [getSphereUv]
    field_simp
    ring
  have hcosth : Real.cos (Real.arccos (-p.y)) = -p.y :=
    Real.cos_arccos (by linarith) (by linarith)
  have hsinth : Real.sin (Real.arccos (-p.y)) = Real.sqrt (1 - p.y * p.y) := by
    rw [Real.sin_arccos]
    congr 1
    ring
  have hcosphi : Real.cos (atan2R (-p.z) p.x + Real.pi) =
      -(p.x / Real.sqrt (1 - p.y * p.y)) := by
    rw [Real.cos_add, Real.cos_pi, Real.sin_pi]
    rw [atan2R, hcosarg]
    ring
  have hsinphi : Real.sin (atan2R (-p.z) p.x + Real.pi) =
      p.z / Real.sqrt (1 - p.y * p.y) := by
    rw [Real.sin_add, Real.cos_pi, Real.sin_pi]
    rw [atan2R, hsinarg]
    ring
  refine ⟨?round, ?u0, ?u1, ?v0, ?v1⟩
  case round =>
    show (⟨_, _, _⟩ : Vec3 ℝ) = p
    have hx : -Real.sin ((getSphereUv p).2 * Real.pi) *
        Real.cos ((getSphereUv p).1 * 2 * Real.pi) = p.x := by
      rw [hthe, hphi, hsinth, hcosphi]
      field_simp
    have hyc : -Real.cos ((getSphereUv p).2 * Real.pi) = p.y := by
      rw [hthe, hcosth]; ring
    have hz : Real.sin ((getSphereUv p).2 * Real.pi) *
        Real.sin ((getSphereUv p).1 * 2 * Real.pi) = p.z := by
      rw [hthe, hphi, hsinth, hsinphi]
      field_simp
    cases p with
    | mk px py pz =>
      simp only [Vec3.mk.injEq] at hx hyc hz ⊢
      exact ⟨hx, hyc, hz⟩
  case u0 =>
    simp only [getSphereUv]
    apply div_nonneg _ (by positivity)
    have := Complex.neg_pi_lt_arg (⟨p.x, -p.z⟩ : ℂ)
    simp only [atan2R]
    linarith
  case u1 =>
    simp only [getSphereUv]
    rw [div_le_one (by positivity)]
    have := Complex.arg_le_pi (⟨p.x, -p.z⟩ : ℂ)
    simp only [atan2R]
    linarith
  case v0 =>
    simp only [getSphereUv]
    apply div_nonneg (Real.arccos_nonneg _) (le_of_lt Real.pi_pos)
  case v1 =>
    simp only [getSphereUv]
    rw [div_le_one Real.pi_pos]
    exact Real.arccos_le_pi _

/-- Witness for claim C8 at the unit vector `(3/5, 4/5, 0)`. -/
theorem sphere_uv_roundtrip_witness :
    uvToSphere (getSphereUv ⟨3/5, 4/5, 0⟩).1 (getSphereUv ⟨3/5, 4/5, 0⟩).2 =
      (⟨3/5, 4/5, 0⟩ : Vec3 ℝ) ∧
    0 ≤ (getSphereUv (⟨3/5, 4/5, 0⟩ : Vec3 ℝ)).1 ∧
    (getSphereUv (⟨3/5, 4/5, 0⟩ : Vec3 ℝ)).1 ≤ 1 ∧
    0 ≤ (getSphereUv (⟨3/5, 4/5, 0⟩ : Vec3 ℝ)).2 ∧
    (getSphereUv (⟨3/5, 4/5, 0⟩ : Vec3 ℝ)).2 ≤ 1 :=
  sphere_uv_roundtrip ⟨3/5, 4/5, 0⟩ (by norm_num) (by rw [abs_of_nonneg] <;> norm_num)

/-!
`DispersiveGlass::scatter` (`src/material/dispersive.hpp` lines 23-79)
and `wavelength_to_rgb` (`src/core/utils.hpp` lines 198-245), over `ℚ`.
The two `sqrt` calls (`glm::normalize` and the refraction/`sin_theta`
square roots) only influence the outgoing direction, not the wavelength
or attenuation; they are abstracted as the parameter `sqrtQ`.  The two
random draws are passed in: `uLam` for `random_float(380, 780)` (which
returns `380 + u * 400`) and `uRefl` for the Fresnel coin flip.
-/

/-- Ray value type (`src/core/ray.hpp`): origin, direction, shutter time
and carried wavelength (`0` denotes white / full spectrum). -/
structure RayQ where
  orig : Vec3 ℚ
  dir : Vec3 ℚ
  time : ℚ
  wavelength : ℚ
deriving DecidableEq, Repr

/-- The `HitRecord` fields that `DispersiveGlass::scatter` reads:
hit point, shading normal, `front_face`. -/
structure HitRec where
  p : Vec3 ℚ
  normal : Vec3 ℚ
  frontFace : Bool
deriving DecidableEq, Repr

/-- The `ScatterRecord` fields that `DispersiveGlass::scatter` writes:
`is_specular`, `pdf`, `attenuation`, `specular_ray`. -/
structure SpecScatter where
  isSpec : Bool
  pdf : ℚ
  attenuation : Vec3 ℚ
  ray : RayQ
deriving DecidableEq, Repr

/-- `glm::normalize` with the square root abstracted. -/
def normalizeQ (sqrtQ : ℚ → ℚ) (v : Vec3 ℚ) : Vec3 ℚ :=
  Vec3.divs v (sqrtQ (Vec3.dot v v))

/-- `glm::reflect(I, N) = I - 2 * dot(N, I) * N`. -/
def reflectQ (i n : Vec3 ℚ) : Vec3 ℚ :=
  Vec3.sub i (Vec3.smul (2 * Vec3.dot n i) n)

/-- `glm::refract(I, N, eta)`: `k = 1 - eta² (1 - dot(N,I)²)`; zero vector
if `k < 0`, else `eta·I - (eta·dot(N,I) + sqrt(k))·N`. -/
def refractQ (sqrtQ : ℚ → ℚ) (i n : Vec3 ℚ) (eta : ℚ) : Vec3 ℚ :=
  let d := Vec3.dot n i
  let k := 1 - eta * eta * (1 - d * d)
  if k < 0 then ⟨0, 0, 0⟩
  else Vec3.sub (Vec3.smul eta i) (Vec3.smul (eta * d + sqrtQ k) n)

/-- `wavelength_to_rgb` (`src/core/utils.hpp`): Bruton piecewise RGB,
scaled by the fall-off factor near the vision limits. -/
def wavelengthToRgb (lambda : ℚ) : Vec3 ℚ :=
  let rgb : Vec3 ℚ :=
    if 380 ≤ lambda ∧ lambda < 440 then ⟨-(lambda - 440) / (440 - 380), 0, 1⟩
    else if 440 ≤ lambda ∧ lambda < 490 then ⟨0, (lambda - 440) / (490 - 440), 1⟩
    else if 490 ≤ lambda ∧ lambda < 510 then ⟨0, 1, -(lambda - 510) / (510 - 490)⟩
    else if 510 ≤ lambda ∧ lambda < 580 then ⟨(lambda - 510) / (580 - 510), 1, 0⟩
    else if 580 ≤ lambda ∧ lambda < 645 then ⟨1, -(lambda - 645) / (645 - 580), 0⟩
    else if 645 ≤ lambda ∧ lambda ≤ 780 then ⟨1, 0, 0⟩
    else ⟨0, 0, 0⟩
  let factor : ℚ :=
    if 380 ≤ lambda ∧ lambda < 420 then 3/10 + 7/10 * (lambda - 380) / (420 - 380)
    else if 420 ≤ lambda ∧ lambda < 700 then 1
    else if 700 ≤ lambda ∧ lambda ≤ 780 then 3/10 + 7/10 * (780 - lambda) / (780 - 700)
    else 0
  ⟨rgb.x * factor, rgb.y * factor, rgb.z * factor⟩

/-- Schlick reflectance, the private `DispersiveGlass::reflectance`. -/
def schlickReflectance (cosine refIdx : ℚ) : ℚ :=
  let r0 := (1 - refIdx) / (1 + refIdx)
  let r0sq := r0 * r0
  r0sq + (1 - r0sq) * (1 - cosine) ^ 5

/-- Cauchy index `n(λ) = A + B / λ_μm²` as used in step 2 of
`DispersiveGlass::scatter` (`lambda_um = lambda_nm / 1000`). -/
def cauchyIor (a b lam : ℚ) : ℚ :=
  a + b / ((lam / 1000) * (lam / 1000))

/-- Steps 2-3 of `DispersiveGlass::scatter` for a given refractive index:
ratio selection by `front_face`, total-internal-reflection test, Schlick
coin flip, reflect or refract. -/
def dielectricDirection (sqrtQ : ℚ → ℚ) (ior uRefl : ℚ)
    (dirIn n : Vec3 ℚ) (frontFace : Bool) : Vec3 ℚ :=
  let refractionRatio := if frontFace then 1 / ior else ior
  let unitDirection := normalizeQ sqrtQ dirIn
  let cosTheta := min (Vec3.dot (Vec3.smul (-1) unitDirection) n) 1
  let sinTheta := sqrtQ (max 0 (1 - cosTheta * cosTheta))
  let cannotRefract := refractionRatio * sinTheta > 1
  if cannotRefract ∨ schlickReflectance cosTheta refractionRatio > uRefl
  then reflectQ unitDirection n
  else refractQ sqrtQ unitDirection n refractionRatio

/-- `DispersiveGlass::scatter` (`src/material/dispersive.hpp` lines 23-79),
translated step for step. -/
def dispersiveScatter (albedo : Vec3 ℚ) (a b : ℚ) (sqrtQ : ℚ → ℚ)
    (uLam uRefl : ℚ) (rIn : RayQ) (rec : HitRec) : SpecScatter :=
  let lambdaNm := if rIn.wavelength ≤ EPSILON then 380 + uLam * (780 - 380)
    else rIn.wavelength
  let colorFilter := if rIn.wavelength ≤ EPSILON
    then Vec3.smul 3 (Vec3.mul (wavelengthToRgb lambdaNm) albedo)
    else ⟨1, 1, 1⟩
  let direction := dielectricDirection sqrtQ (cauchyIor a b lambdaNm) uRefl
    rIn.dir rec.normal rec.frontFace
  { isSpec := true, pdf := 0, attenuation := colorFilter,
    ray := { orig := rec.p, dir := direction, time := rIn.time,
             wavelength := lambdaNm } }

/-- Counterexample for claim C7 as stated: the code's white-ray test is
`wavelength <= EPSILON` (`EPSILON = 1e-6`), not `wavelength == 0`.  An
incoming ray carrying the (positive) wavelength `5e-7` is treated as
white: with draw `uLam = 0` the scattered ray carries 380 nm instead of
the incoming wavelength, and the attenuation is not `(1,1,1)`. -/
theorem dispersive_scatter_positive_lambda_counterexample :
    0 < (RayQ.mk ⟨0, 0, 0⟩ ⟨0, 0, -1⟩ 0 (1/2000000)).wavelength ∧
    (dispersiveScatter ⟨1, 1, 1⟩ (3/2) 0 (fun _ => 0) 0 0
        (RayQ.mk ⟨0, 0, 0⟩ ⟨0, 0, -1⟩ 0 (1/2000000))
        (HitRec.mk ⟨0, 0, 0⟩ ⟨0, 0, 1⟩ true)).ray.wavelength ≠ 1/2000000 ∧
    (dispersiveScatter ⟨1, 1, 1⟩ (3/2) 0 (fun _ => 0) 0 0
        (RayQ.mk ⟨0, 0, 0⟩ ⟨0, 0, -1⟩ 0 (1/2000000))
        (HitRec.mk ⟨0, 0, 0⟩ ⟨0, 0, 1⟩ true)).attenuation ≠ ⟨1, 1, 1⟩ := by
  refine ⟨by norm_num, ?w, ?a⟩
  case w => norm_num [dispersiveScatter, EPSILON]
  case a =>
    norm_num [dispersiveScatter, EPSILON, wavelengthToRgb, Vec3.mul, Vec3.smul,
      Vec3.mk.injEq]

/-- Claim C7, amended: the white-versus-monochromatic dichotomy is
`λ ≤ EPSILON` versus `λ > EPSILON` (`EPSILON = 1e-6`), not `λ = 0` versus
`λ > 0`.  With that change the claim holds for
`DispersiveGlass::scatter` (`src/material/dispersive.hpp`): a ray
carrying `λ > EPSILON` scatters with the same wavelength and white
attenuation `(1,1,1)`; a ray with `λ ≤ EPSILON` receives
`λ = 380 + u·(780-380)` (uniform in `[380, 780)` for `u ∈ [0,1)`),
attenuation `wavelength_to_rgb(λ) · albedo · 3`, and the outgoing ray
carries the drawn wavelength; in both cases the outgoing direction is the
dielectric reflect/refract computed with refractive index
`A + B / λ_μm²` for the carried wavelength, and the scatter record is
specular with delta pdf 0. -/
theorem dispersive_scatter_wavelength_contract (albedo : Vec3 ℚ) (a b : ℚ)
    (sqrtQ : ℚ → ℚ) (uLam uRefl : ℚ) (rIn : RayQ) (h : HitRec)
    (hu0 : 0 ≤ uLam) (hu1 : uLam < 1) :
    (dispersiveScatter albedo a b sqrtQ uLam uRefl rIn h).isSpec = true ∧
    (dispersiveScatter albedo a b sqrtQ uLam uRefl rIn h).pdf = 0 ∧
    (EPSILON < rIn.wavelength →
      (dispersiveScatter albedo a b sqrtQ uLam uRefl rIn h).ray.wavelength =
          rIn.wavelength ∧
      (dispersiveScatter albedo a b sqrtQ uLam uRefl rIn h).attenuation = ⟨1, 1, 1⟩) ∧
    (rIn.wavelength ≤ EPSILON →
      (dispersiveScatter albedo a b sqrtQ uLam uRefl rIn h).ray.wavelength =
          380 + uLam * (780 - 380) ∧
      380 ≤ (dispersiveScatter albedo a b sqrtQ uLam uRefl rIn h).ray.wavelength ∧
      (dispersiveScatter albedo a b sqrtQ uLam uRefl rIn h).ray.wavelength < 780 ∧
      (dispersiveScatter albedo a b sqrtQ uLam uRefl rIn h).attenuation =
        Vec3.smul 3 (Vec3.mul (wavelengthToRgb (380 + uLam * (780 - 380))) albedo)) ∧
    (dispersiveScatter albedo a b sqrtQ uLam uRefl rIn h).ray.dir =
      dielectricDirection sqrtQ
        (cauchyIor a b (dispersiveScatter albedo a b sqrtQ uLam uRefl rIn h).ray.wavelength)
        uRefl rIn.dir h.normal h.frontFace := by
  refine ⟨rfl, rfl, ?inh, ?white, ?dir⟩
  case inh =>
    intro hgt
    have hw : ¬ rIn.wavelength ≤ EPSILON := not_le.mpr hgt
    simp only [dispersiveScatter, if_neg hw]
    exact ⟨trivial, trivial⟩
  case white =>
    intro hle
    simp only [dispersiveScatter, if_pos hle]
    refine ⟨trivial, by linarith, by linarith, trivial⟩
  case dir =>
    by_cases hw : rIn.wavelength ≤ EPSILON
    · simp only [dispersiveScatter, if_pos hw]
    · simp only [dispersiveScatter, if_neg hw]

/-- Witness for the amended claim C7 at a monochromatic incoming ray of
500 nm. -/
theorem dispersive_scatter_wavelength_contract_witness :
    (dispersiveScatter ⟨1, 1, 1⟩ (3/2) (1/250) (fun _ => 1) (1/2) (1/2)
        (RayQ.mk ⟨0, 0, 0⟩ ⟨0, 0, -1⟩ 0 500)
        (HitRec.mk ⟨0, 0, 0⟩ ⟨0, 0, 1⟩ true)).ray.wavelength = 500 ∧
    (dispersiveScatter ⟨1, 1, 1⟩ (3/2) (1/250) (fun _ => 1) (1/2) (1/2)
        (RayQ.mk ⟨0, 0, 0⟩ ⟨0, 0, -1⟩ 0 500)
        (HitRec.mk ⟨0, 0, 0⟩ ⟨0, 0, 1⟩ true)).attenuation = ⟨1, 1, 1⟩ :=
  (dispersive_scatter_wavelength_contract ⟨1, 1, 1⟩ (3/2) (1/250) (fun _ => 1)
      (1/2) (1/2) (RayQ.mk ⟨0, 0, 0⟩ ⟨0, 0, -1⟩ 0 500)
      (HitRec.mk ⟨0, 0, 0⟩ ⟨0, 0, 1⟩ true) (by norm_num) (by norm_num)).2.2.1
    (by norm_num [EPSILON])

/-!
PhotonMap k-nearest search (`src/accel/kdtree.hpp`, `find_knn` lines
59-77 and `find_knn_recursive` lines 159-214).

The `std::vector` used as a binary max-heap (`std::make_heap`,
`std::pop_heap`/`pop_back`, `push_back`/`std::push_heap`) is modelled by
its contents: `heapMax` is the front of the heap (the largest squared
distance), and popping removes one element attaining it.  The C++
`float` search radius, which the code initialises to `Infinity` when the
caller passes a non-positive value, is modelled as `WithTop ℚ`.
Tree ranges are C++ `int` pairs; all ranges reachable from the root call
`(0, size-1)` are non-negative, where C++ truncating and Lean flooring
division by 2 agree.
-/

/-- `struct Photon` (`src/core/photon.hpp`): position, power, incoming
direction, KD split axis. -/
structure PhotonQ where
  p : Vec3 ℚ
  power : Vec3 ℚ
  incoming : Vec3 ℚ
  plane : Fin 3
deriving DecidableEq, Repr

/-- `struct NearPhoton`: the photon (by index into the map's array) and
its squared distance to the query point. -/
structure NearP where
  idx : ℕ
  distSq : ℚ
deriving DecidableEq, Repr

/-- Front of the max-heap: the largest squared distance stored. -/
def heapMax : List NearP → ℚ
  | [] => 0
  | e :: rest => rest.foldl (fun m x => max m x.distSq) e.distSq

/-- Remove the first element carrying the given squared distance
(`std::pop_heap` + `pop_back` removes one maximal element). -/
def removeFirstWith (v : ℚ) : List NearP → List NearP
  | [] => []
  | e :: rest => if e.distSq = v then rest else e :: removeFirstWith v rest

/-- `std::pop_heap` followed by `pop_back`: drop one element attaining
the maximum. -/
def popMax (h : List NearP) : List NearP :=
  removeFirstWith (heapMax h) h

/-- Step 2 of `find_knn_recursive` (lines 169-189): try adding the
current photon to the priority queue, shrinking the search radius. -/
def knnInsert (k : ℕ) (heap : List NearP) (r2 : WithTop ℚ) (idx : ℕ)
    (d : ℚ) : List NearP × WithTop ℚ :=
  if (d : WithTop ℚ) < r2 then
    if heap.length < k then
      let h2 := heap ++ [⟨idx, d⟩]
      if h2.length = k then (h2, ((heapMax h2 : ℚ) : WithTop ℚ)) else (h2, r2)
    else
      let h2 := popMax heap ++ [⟨idx, d⟩]
      (h2, ((heapMax h2 : ℚ) : WithTop ℚ))
  else (heap, r2)

/-- Placeholder photon for out-of-range array accesses (unreachable from
the wrapper's index ranges). -/
def photonDefault : PhotonQ := ⟨⟨0, 0, 0⟩, ⟨0, 0, 0⟩, ⟨0, 0, 0⟩, 0⟩

/-- `PhotonMap::find_knn_recursive` (lines 159-214). -/
def findKnnRec (photons : List PhotonQ) (q : Vec3 ℚ) (k : ℕ) :
    Int → Int → List NearP → WithTop ℚ → List NearP × WithTop ℚ :=
  fun start endd heap r2 =>
  if hrange : start > endd then (heap, r2)
  else
    let mid : Int := (start + endd) / 2
    let curr := photons.getD mid.toNat photonDefault
    let dvec := Vec3.sub curr.p q
    let distSq := Vec3.dot dvec dvec
    let st1 := knnInsert k heap r2 mid.toNat distSq
    let diff := Vec3.nth q curr.plane - Vec3.nth curr.p curr.plane
    let diff2 := diff * diff
    if diff < 0 then
      let st2 := findKnnRec photons q k start (mid - 1) st1.1 st1.2
      if (diff2 : WithTop ℚ) < st2.2 then
        findKnnRec photons q k (mid + 1) endd st2.1 st2.2
      else st2
    else
      let st2 := findKnnRec photons q k (mid + 1) endd st1.1 st1.2
      if (diff2 : WithTop ℚ) < st2.2 then
        findKnnRec photons q k start (mid - 1) st2.1 st2.2
      else st2
termination_by start endd _ _ => (endd + 1 - start).toNat
decreasing_by
  all_goals omega

/-- `PhotonMap::find_knn` (lines 59-77): clear the buffer, start from the
caller's radius if positive else `Infinity`, search, then report the
final radius (or 0 when nothing was collected).  An empty map returns
the caller's buffer and radius untouched. -/
def findKnn (photons : List PhotonQ) (q : Vec3 ℚ) (k : ℕ)
    (heapIn : List NearP) (rIn : WithTop ℚ) : List NearP × WithTop ℚ :=
  if photons.isEmpty then (heapIn, rIn)
  else
    let r0 : WithTop ℚ := if 0 < rIn then rIn else ⊤
    let st := findKnnRec photons q k 0 ((photons.length : Int) - 1) [] r0
    if st.1.isEmpty then (st.1, ((0 : ℚ) : WithTop ℚ)) else st

lemma foldlMax_ge_acc (l : List NearP) (acc : ℚ) :
    acc ≤ l.foldl (fun m x => max m x.distSq) acc := by
  induction l generalizing acc with
  | nil => simp
  | cons e rest ih =>
    simp only [List.foldl_cons]
    exact le_trans (le_max_left _ _) (ih _)

lemma foldlMax_mem (l : List NearP) (acc : ℚ) (e : NearP) (he : e ∈ l) :
    e.distSq ≤ l.foldl (fun m x => max m x.distSq) acc := by
  induction l generalizing acc with
  | nil => simp at he
  | cons a rest ih =>
    simp only [List.foldl_cons]
    rcases List.mem_cons.mp he with heq | hmem
    · rw [heq]
      exact le_trans (le_max_right _ _) (foldlMax_ge_acc _ _)
    · exact ih _ hmem

lemma foldlMax_cases (l : List NearP) (acc : ℚ) :
    l.foldl (fun m x => max m x.distSq) acc = acc ∨
    ∃ e ∈ l, l.foldl (fun m x => max m x.distSq) acc = e.distSq := by
  induction l generalizing acc with
  | nil => left; rfl
  | cons a rest ih =>
    simp only [List.foldl_cons]
    rcases ih (max acc a.distSq) with h | ⟨e, he, hval⟩
    · rcases le_or_lt a.distSq acc with hle | hlt
      · left
        rw [h, max_eq_left hle]
      · right
        refine ⟨a, List.mem_cons_self _ _, ?_⟩
        rw [h, max_eq_right (le_of_lt hlt)]
    · right
      exact ⟨e, List.mem_cons_of_mem _ he, hval⟩

lemma le_heapMax (h : List NearP) (e : NearP) (he : e ∈ h) :
    e.distSq ≤ heapMax h := by
  cases h with
  | nil => simp at he
  | cons a rest =>
    unfold heapMax
    rcases List.mem_cons.mp he with heq | hmem
    · rw [heq]
      exact foldlMax_ge_acc _ _
    · exact foldlMax_mem _ _ _ hmem

lemma heapMax_attained (h : List NearP) (hne : h ≠ []) :
    ∃ e ∈ h, heapMax h = e.distSq := by
  cases h with
  | nil => exact absurd rfl hne
  | cons a rest =>
    unfold heapMax
    rcases foldlMax_cases rest a.distSq with heq | ⟨e, he, heq⟩
    · exact ⟨a, List.mem_cons_self _ _, heq⟩
    · exact ⟨e, List.mem_cons_of_mem _ he, heq⟩

lemma removeFirstWith_subset (v : ℚ) (h : List NearP) (e : NearP)
    (he : e ∈ removeFirstWith v h) : e ∈ h := by
  induction h with
  | nil => simpa [removeFirstWith] using he
  | cons a rest ih =>
    unfold removeFirstWith at he
    by_cases hv : a.distSq = v
    · rw [if_pos hv] at he
      exact List.mem_cons_of_mem _ he
    · rw [if_neg hv] at he
      rcases List.mem_cons.mp he with heq | hmem
      · rw [heq]
        exact List.mem_cons_self _ _
      · exact List.mem_cons_of_mem _ (ih hmem)

lemma removeFirstWith_length (v : ℚ) (h : List NearP)
    (hmem : ∃ e ∈ h, e.distSq = v) :
    (removeFirstWith v h).length + 1 = h.length := by
  induction h with
  | nil =>
    obtain ⟨e, he, _⟩ := hmem
    simp at he
  | cons a rest ih =>
    unfold removeFirstWith
    by_cases hv : a.distSq = v
    · rw [if_pos hv]
      simp
    · rw [if_neg hv]
      obtain ⟨e, he, hev⟩ := hmem
      rcases List.mem_cons.mp he with heq | hmem2
      · rw [heq] at hev
        exact absurd hev hv
      · simp only [List.length_cons]
        rw [← ih ⟨e, hmem2, hev⟩]

lemma popMax_length (h : List NearP) (hne : h ≠ []) :
    (popMax h).length + 1 = h.length := by
  obtain ⟨e, he, heq⟩ := heapMax_attained h hne
  exact removeFirstWith_length _ _ ⟨e, he, heq.symm⟩

lemma popMax_subset (h : List NearP) (e : NearP) (he : e ∈ popMax h) : e ∈ h :=
  removeFirstWith_subset _ _ _ he

/-- Search state invariant of the shrinking-radius k-NN recursion: the
heap never exceeds `k` entries; while it is not full the radius is the
initial one; once full the radius is the heap front (the largest stored
squared distance); and every stored photon lies strictly within the
initial radius. -/
def KnnInv (k : ℕ) (r0 : WithTop ℚ) (heap : List NearP) (r2 : WithTop ℚ) : Prop :=
  heap.length ≤ k ∧
  (heap.length < k → r2 = r0) ∧
  (heap.length = k → r2 = ((heapMax heap : ℚ) : WithTop ℚ)) ∧
  (∀ e ∈ heap, (e.distSq : WithTop ℚ) < r0)

lemma knnInsert_inv (k : ℕ) (r0 : WithTop ℚ) (heap : List NearP)
    (r2 : WithTop ℚ) (idx : ℕ) (d : ℚ) (hk : 1 ≤ k)
    (hinv : KnnInv k r0 heap r2) :
    KnnInv k r0 (knnInsert k heap r2 idx d).1 (knnInsert k heap r2 idx d).2 := by
  obtain ⟨hlen, hlt, heq, hmem⟩ := hinv
  unfold knnInsert
  by_cases hd : (d : WithTop ℚ) < r2
  case neg =>
    simp only [if_neg hd]
    exact ⟨hlen, hlt, heq, hmem⟩
  case pos =>
  simp only [if_pos hd]
  by_cases hsz : heap.length < k
  · simp only [if_pos hsz]
    have hr0 : r2 = r0 := hlt hsz
    have hnew : ∀ e ∈ heap ++ [(⟨idx, d⟩ : NearP)], (e.distSq : WithTop ℚ) < r0 := by
      intro e he
      rcases List.mem_append.mp he with h1 | h2
      · exact hmem e h1
      · have : e = (⟨idx, d⟩ : NearP) := by simpa using h2
        rw [this]
        rw [hr0] at hd
        exact hd
    by_cases hk2 : (heap ++ [(⟨idx, d⟩ : NearP)]).length = k
    · simp only [if_pos hk2]
      refine ⟨le_of_eq hk2, ?_, fun _ => rfl, hnew⟩
      intro hcon
      rw [hk2] at hcon
      exact absurd hcon (lt_irrefl k)
    · simp only [if_neg hk2]
      refine ⟨?_, fun _ => hr0, fun hcon => absurd hcon hk2, hnew⟩
      have hlen2 : (heap ++ [(⟨idx, d⟩ : NearP)]).length = heap.length + 1 := by simp
      omega
  · simp only [if_neg hsz]
    have hlenk : heap.length = k := le_antisymm hlen (not_lt.mp hsz)
    have hne : heap ≠ [] := by
      intro h0
      rw [h0] at hlenk
      simp at hlenk
      omega
    have hr2 : r2 = ((heapMax heap : ℚ) : WithTop ℚ) := heq hlenk
    have hdmax : d < heapMax heap := by
      rw [hr2] at hd
      exact_mod_cast hd
    have hpop := popMax_length heap hne
    have hlen2 : (popMax heap ++ [(⟨idx, d⟩ : NearP)]).length = k := by
      simp only [List.length_append, List.length_singleton]
      omega
    obtain ⟨emax, hemax, heqmax⟩ := heapMax_attained heap hne
    have hmaxr0 : ((heapMax heap : ℚ) : WithTop ℚ) < r0 := by
      rw [heqmax]
      exact hmem emax hemax
    refine ⟨le_of_eq hlen2, ?_, fun _ => rfl, ?_⟩
    · intro hcon
      rw [hlen2] at hcon
      exact absurd hcon (lt_irrefl k)
    · intro e he
      rcases List.mem_append.mp he with h1 | h2
      · exact hmem e (popMax_subset _ _ h1)
      · have : e = (⟨idx, d⟩ : NearP) := by simpa using h2
        rw [this]
        exact lt_trans (by exact_mod_cast hdmax) hmaxr0

lemma findKnnRec_inv (photons : List PhotonQ) (q : Vec3 ℚ) (k : ℕ)
    (r0 : WithTop ℚ) (hk : 1 ≤ k) :
    ∀ (n : ℕ) (start endd : Int) (heap : List NearP) (r2 : WithTop ℚ),
      (endd + 1 - start).toNat ≤ n →
      KnnInv k r0 heap r2 →
      KnnInv k r0 (findKnnRec photons q k start endd heap r2).1
        (findKnnRec photons q k start endd heap r2).2 := by
  intro n
  induction n with
  | zero =>
    intro start endd heap r2 hn hinv
    have hrange : start > endd := by omega
    rw [findKnnRec, dif_pos hrange]
    exact hinv
  | succ m ih =>
    intro start endd heap r2 hn hinv
    by_cases hrange : start > endd
    · rw [findKnnRec, dif_pos hrange]
      exact hinv
    · rw [findKnnRec, dif_neg hrange]
      lift_lets
      extract_lets mid curr dvec distSq st1 diff diff2
      have hmid1 : start ≤ mid := by
        show start ≤ (start + endd) / 2
        omega
      have hmid2 : mid ≤ endd := by
        show (start + endd) / 2 ≤ endd
        omega
      have hst1 : KnnInv k r0 st1.1 st1.2 :=
        knnInsert_inv k r0 heap r2 mid.toNat distSq hk hinv
      extract_lets st2 st3
      have hst2 : KnnInv k r0 st2.1 st2.2 :=
        ih start (mid - 1) st1.1 st1.2 (by omega) hst1
      have hst3 : KnnInv k r0 st3.1 st3.2 :=
        ih (mid + 1) endd st1.1 st1.2 (by omega) hst1
      by_cases hdiff : diff < 0
      · rw [if_pos hdiff]
        by_cases hprune : (diff2 : WithTop ℚ) < st2.2
        · rw [if_pos hprune]
          exact ih (mid + 1) endd st2.1 st2.2 (by omega) hst2
        · rw [if_neg hprune]
          exact hst2
      · rw [if_neg hdiff]
        by_cases hprune : (diff2 : WithTop ℚ) < st3.2
        · rw [if_pos hprune]
          exact ih start (mid - 1) st3.1 st3.2 (by omega) hst3
        · rw [if_neg hprune]
          exact hst3

/-- Counterexample for claim C5 as stated.  One photon at the origin,
query `(0,0,2)` (squared distance 4), `K = 1`, initial search radius
`r² = 1`: the root photon is visited while zero photons have been
collected, yet it is not inserted (the code only inserts candidates with
`dist² < search_r²`, and the search starts from the caller's radius, not
from infinity); the search returns an empty heap and `r²_out = 0`,
whereas the claim requires the photon inserted and `r²_out = 4`, the
squared distance to the first nearest photon. -/
theorem findknn_claim_counterexample :
    (findKnn [⟨⟨0, 0, 0⟩, ⟨0, 0, 0⟩, ⟨0, 0, 0⟩, 0⟩] ⟨0, 0, 2⟩ 1 []
        ((1 : ℚ) : WithTop ℚ)).1 = [] ∧
    (findKnn [⟨⟨0, 0, 0⟩, ⟨0, 0, 0⟩, ⟨0, 0, 0⟩, 0⟩] ⟨0, 0, 2⟩ 1 []
        ((1 : ℚ) : WithTop ℚ)).2 = ((0 : ℚ) : WithTop ℚ) ∧
    ((0 : ℚ) : WithTop ℚ) ≠ ((4 : ℚ) : WithTop ℚ) ∧
    Vec3.dot (Vec3.sub (⟨0, 0, 0⟩ : Vec3 ℚ) ⟨0, 0, 2⟩)
      (Vec3.sub (⟨0, 0, 0⟩ : Vec3 ℚ) ⟨0, 0, 2⟩) = 4 := by
  have hbase1 : findKnnRec [⟨⟨0, 0, 0⟩, ⟨0, 0, 0⟩, ⟨0, 0, 0⟩, 0⟩] ⟨0, 0, 2⟩ 1
      1 0 [] ((1 : ℚ) : WithTop ℚ) = ([], ((1 : ℚ) : WithTop ℚ)) := by
    rw [findKnnRec, dif_pos (by norm_num : (1 : ℤ) > 0)]
  have hbase2 : findKnnRec [⟨⟨0, 0, 0⟩, ⟨0, 0, 0⟩, ⟨0, 0, 0⟩, 0⟩] ⟨0, 0, 2⟩ 1
      0 (-1) [] ((1 : ℚ) : WithTop ℚ) = ([], ((1 : ℚ) : WithTop ℚ)) := by
    rw [findKnnRec, dif_pos (by norm_num : (0 : ℤ) > -1)]
  have hmain : findKnnRec [⟨⟨0, 0, 0⟩, ⟨0, 0, 0⟩, ⟨0, 0, 0⟩, 0⟩] ⟨0, 0, 2⟩ 1
      0 0 [] ((1 : ℚ) : WithTop ℚ) = ([], ((1 : ℚ) : WithTop ℚ)) := by
    rw [findKnnRec, dif_neg (by norm_num : ¬ (0 : ℤ) > 0)]
    lift_lets
    extract_lets mid curr dvec dSq st1 diff diff2 st2 st3
    have hmid : mid = 0 := rfl
    have hcurr : curr = ⟨⟨0, 0, 0⟩, ⟨0, 0, 0⟩, ⟨0, 0, 0⟩, 0⟩ := by
      simp [curr, hmid, List.getD]
    have hdSq : dSq = 4 := by
      norm_num [dSq, dvec, hcurr, Vec3.sub, Vec3.dot]
    have hst1 : st1 = ([], ((1 : ℚ) : WithTop ℚ)) := by
      have hnot : ¬ ((dSq : ℚ) : WithTop ℚ) < ((1 : ℚ) : WithTop ℚ) := by
        rw [hdSq]
        rw [WithTop.coe_lt_coe]
        norm_num
      simp only [st1, knnInsert, if_neg hnot]
    have hdiff : diff = 0 := by
      norm_num [diff, hcurr, Vec3.nth]
    have hdiff2 : diff2 = 0 := by
      norm_num [diff2, hdiff]
    have hst3 : st3 = ([], ((1 : ℚ) : WithTop ℚ)) := by
      simp only [st3, hmid, hst1]
      norm_num
      exact hbase1
    rw [if_neg (show ¬ diff < 0 by rw [hdiff]; norm_num)]
    rw [hdiff2, hst3]
    rw [if_pos (show ((0 : ℚ) : WithTop ℚ) < (([], ((1 : ℚ) : WithTop ℚ)).2 : WithTop ℚ) by
      rw [WithTop.coe_lt_coe]; norm_num)]
    rw [hmid]
    norm_num
    exact hbase2
  rw [WithTop.coe_one] at hmain
  refine ⟨?h1, ?h2, ?h3, ?h4⟩
  case h3 =>
    intro hcon
    rw [WithTop.coe_inj] at hcon
    norm_num at hcon
  case h4 => norm_num [Vec3.dot, Vec3.sub]
  all_goals
    simp only [findKnn, List.isEmpty_cons, Bool.false_eq_true, if_false,
      List.length_cons, List.length_nil]
    rw [if_pos (show (0 : WithTop ℚ) < ((1 : ℚ) : WithTop ℚ) by
      exact_mod_cast (by norm_num : (0 : ℚ) < 1))]
    norm_num [hmain]

/-- Claim C5, amended.  As stated the claim fails (see
`findknn_claim_counterexample`): `find_knn` only inserts a visited photon
when its squared distance is below the CURRENT search radius, which
starts at the caller's radius (not infinity) when that is positive, and
`r²_out` equals the squared distance to the K-th nearest found photon
only when at least `K` photons were collected.  Amended statement, for
every photon array, query point, `K ≥ 1` and initial radius: (i) at most
`K` photons are collected; (ii) if none is collected `r²_out = 0`;
(iii) if some but fewer than `K` are collected `r²_out` is the initial
search radius (the caller's value if positive, else infinity);
(iv) if exactly `K` are collected `r²_out` is the largest squared
distance in the returned heap, i.e. the squared distance to the K-th
nearest among those found; (v) every collected photon lies strictly
within the initial search radius; and (vi) while fewer than `K` photons
have been collected the insertion step of `find_knn_recursive` inserts a
visited candidate if and only if its squared distance is below the
current search radius. -/
theorem findknn_radius_contract (photons : List PhotonQ) (q : Vec3 ℚ) (k : ℕ)
    (heapIn : List NearP) (rIn : WithTop ℚ) (hk : 1 ≤ k) (hne : photons ≠ []) :
    (findKnn photons q k heapIn rIn).1.length ≤ k ∧
    ((findKnn photons q k heapIn rIn).1 = [] →
      (findKnn photons q k heapIn rIn).2 = ((0 : ℚ) : WithTop ℚ)) ∧
    ((findKnn photons q k heapIn rIn).1 ≠ [] →
      (findKnn photons q k heapIn rIn).1.length < k →
      (findKnn photons q k heapIn rIn).2 = (if 0 < rIn then rIn else ⊤)) ∧
    ((findKnn photons q k heapIn rIn).1.length = k →
      (findKnn photons q k heapIn rIn).2 =
        ((heapMax (findKnn photons q k heapIn rIn).1 : ℚ) : WithTop ℚ)) ∧
    (∀ e ∈ (findKnn photons q k heapIn rIn).1,
      (e.distSq : WithTop ℚ) < (if 0 < rIn then rIn else ⊤)) ∧
    (∀ (h : List NearP) (r2 : WithTop ℚ) (i : ℕ) (d : ℚ), h.length < k →
      (((d : WithTop ℚ) < r2 → (knnInsert k h r2 i d).1 = h ++ [⟨i, d⟩]) ∧
       (¬ (d : WithTop ℚ) < r2 → (knnInsert k h r2 i d).1 = h))) := by
  have hcond : ¬ photons.isEmpty = true := by
    simp [List.isEmpty_iff, hne]
  have hout : findKnn photons q k heapIn rIn =
      (if (findKnnRec photons q k 0 ((photons.length : Int) - 1) []
            (if 0 < rIn then rIn else ⊤)).1.isEmpty
       then ((findKnnRec photons q k 0 ((photons.length : Int) - 1) []
            (if 0 < rIn then rIn else ⊤)).1, ((0 : ℚ) : WithTop ℚ))
       else findKnnRec photons q k 0 ((photons.length : Int) - 1) []
            (if 0 < rIn then rIn else ⊤)) := by
    unfold findKnn
    rw [if_neg hcond]
  have hInv0 : KnnInv k (if 0 < rIn then rIn else ⊤) []
      (if 0 < rIn then rIn else ⊤) := by
    refine ⟨by simp, fun _ => rfl, ?len0, by simp⟩
    intro h0
    simp at h0
    omega
  have hrec := findKnnRec_inv photons q k (if 0 < rIn then rIn else ⊤) hk
    ((((photons.length : Int) - 1) + 1 - 0).toNat) 0 ((photons.length : Int) - 1)
    [] (if 0 < rIn then rIn else ⊤) (le_refl _) hInv0
  obtain ⟨hlen, hlt, heq, hmem⟩ := hrec
  have hstep : ∀ (h : List NearP) (r2 : WithTop ℚ) (i : ℕ) (d : ℚ), h.length < k →
      (((d : WithTop ℚ) < r2 → (knnInsert k h r2 i d).1 = h ++ [⟨i, d⟩]) ∧
       (¬ (d : WithTop ℚ) < r2 → (knnInsert k h r2 i d).1 = h)) := by
    intro h r2 i d hsz
    constructor
    · intro hd
      unfold knnInsert
      rw [if_pos hd, if_pos hsz]
      by_cases hkk : (h ++ [(⟨i, d⟩ : NearP)]).length = k
      · rw [if_pos hkk]
      · rw [if_neg hkk]
    · intro hd
      unfold knnInsert
      rw [if_neg hd]
  rw [hout]
  by_cases hE : (findKnnRec photons q k 0 ((photons.length : Int) - 1) []
      (if 0 < rIn then rIn else ⊤)).1.isEmpty
  · rw [if_pos hE]
    have hnil : (findKnnRec photons q k 0 ((photons.length : Int) - 1) []
        (if 0 < rIn then rIn else ⊤)).1 = [] := by
      simpa [List.isEmpty_iff] using hE
    refine ⟨by simp [hnil], fun _ => rfl, ?c3, ?c4, ?c5, hstep⟩
    case c3 =>
      intro hcon _
      exact absurd hnil hcon
    case c4 =>
      intro hcon
      rw [hnil] at hcon
      simp at hcon
      omega
    case c5 =>
      intro e he
      rw [hnil] at he
      simp at he
  · rw [if_neg hE]
    refine ⟨hlen, ?c2, fun _ => hlt, heq, hmem, hstep⟩
    case c2 =>
      intro hcon
      rw [List.isEmpty_iff] at hE
      exact absurd hcon hE

/-- Witness for the amended claim C5: a two-photon map queried at the
origin with `K = 1` and initial radius 100. -/
theorem findknn_radius_contract_witness :
    (findKnn [⟨⟨1, 0, 0⟩, ⟨0, 0, 0⟩, ⟨0, 0, 0⟩, 0⟩, ⟨⟨3, 0, 0⟩, ⟨0, 0, 0⟩, ⟨0, 0, 0⟩, 0⟩]
        ⟨0, 0, 0⟩ 1 [] ((100 : ℚ) : WithTop ℚ)).1.length ≤ 1 ∧
    (∀ e ∈ (findKnn [⟨⟨1, 0, 0⟩, ⟨0, 0, 0⟩, ⟨0, 0, 0⟩, 0⟩, ⟨⟨3, 0, 0⟩, ⟨0, 0, 0⟩, ⟨0, 0, 0⟩, 0⟩]
        ⟨0, 0, 0⟩ 1 [] ((100 : ℚ) : WithTop ℚ)).1,
      (e.distSq : WithTop ℚ) <
        (if 0 < ((100 : ℚ) : WithTop ℚ) then ((100 : ℚ) : WithTop ℚ) else ⊤)) := by
  have h := findknn_radius_contract
    [⟨⟨1, 0, 0⟩, ⟨0, 0, 0⟩, ⟨0, 0, 0⟩, 0⟩, ⟨⟨3, 0, 0⟩, ⟨0, 0, 0⟩, ⟨0, 0, 0⟩, 0⟩]
    ⟨0, 0, 0⟩ 1 [] ((100 : ℚ) : WithTop ℚ) (by norm_num) (by simp)
  exact ⟨h.1, h.2.2.2.2.1⟩

/-!
`PhotonIntegrator::estimate_radiance`
(`src/renderer/photon_integrator.hpp` lines 195-340) as a state machine.

What the scene and the samplers feed into one loop iteration is packaged
as a `BounceEvent`: a miss (carrying what `eval_environment` reads from
the scene), an emissive hit (what `eval_emission` reads), a failed
scatter, a specular scatter, or a diffuse scatter (carrying the values
of `sample_one_light`, the two `estimate_radiance_from_map` lookups, the
BRDF evaluation, the shading-normal dot product, the scatter pdf, and
the Russian-roulette draw).  `glm::length`, which the firefly clamp
`clamp_radiance` needs, is not rational; it is abstracted as the
parameter `len3`.  The loop runs one event per bounce, so a run over an
event list of length `max_depth` is one call of `estimate_radiance`.
-/

/-- `Integrator::power_heuristic` (`src/renderer/integrator_utils.hpp`
lines 48-53). -/
def powerHeuristic (pdfF pdfG : ℚ) : ℚ :=
  let f2 := pdfF * pdfF
  let g2 := pdfG * pdfG
  let denom := f2 + g2
  if denom > 0 then f2 / denom else 0

/-- `Integrator::clamp_radiance` (lines 58-64) with `glm::length`
abstracted as `len3`. -/
def clampRadiance (len3 : Vec3 ℚ → ℚ) (l : Vec3 ℚ) (limit : ℚ) : Vec3 ℚ :=
  let lum := len3 l
  if lum > limit then Vec3.smul (limit / lum) l else l

/-- `Integrator::eval_environment` (lines 131-152): full contribution on
a specular bounce, missing distribution, or missing environment light;
otherwise MIS-weighted by the power heuristic. -/
def evalEnvironment (envColor : Vec3 ℚ) (hasDist hasEnv : Bool)
    (selPdf dirPdf bsdfPdf : ℚ) (isSpec : Bool) : Vec3 ℚ :=
  if isSpec || !hasDist || !hasEnv then envColor
  else Vec3.smul (powerHeuristic bsdfPdf (selPdf * dirPdf)) envColor

/-- `Integrator::eval_emission` (lines 157-180): full emission on a
specular bounce, missing distribution, or negative light id; otherwise
MIS-weighted by the power heuristic. -/
def evalEmission (emitted : Vec3 ℚ) (hasDist : Bool) (lightId : Int)
    (selPdf areaPdf bsdfPdf : ℚ) (isSpec : Bool) : Vec3 ℚ :=
  if isSpec || !hasDist then emitted
  else if lightId < 0 then emitted
  else Vec3.smul (powerHeuristic bsdfPdf (selPdf * areaPdf)) emitted

/-- Per-camera-ray path state of `estimate_radiance`: accumulated
radiance `L`, path throughput, the sticky `in_caustic_path` flag,
`last_bounce_specular`, and `last_bsdf_pdf`. -/
structure PIState where
  radiance : Vec3 ℚ
  throughput : Vec3 ℚ
  inCaustic : Bool
  lastSpec : Bool
  lastPdf : ℚ
deriving DecidableEq, Repr

/-- What the scene feeds into one loop iteration of
`estimate_radiance`. -/
inductive BounceEvent
  | miss (envColor : Vec3 ℚ) (hasDist hasEnv : Bool) (selPdf dirPdf : ℚ)
  | emissive (emitted : Vec3 ℚ) (hasDist : Bool) (lightId : Int)
      (selPdf areaPdf : ℚ)
  | noScatter
  | spec (attenuation : Vec3 ℚ) (rr : ℚ)
  | diff (nee caustic glob fr : Vec3 ℚ) (cosDot pdf rr : ℚ)
deriving DecidableEq, Repr

/-- Section 5 of the loop body (Russian roulette after depth 3): `none`
means the path is terminated, `some` carries the updated throughput. -/
def russianRoulette (bounce : ℕ) (thr : Vec3 ℚ) (rr : ℚ) : Option (Vec3 ℚ) :=
  if bounce > 3 then
    let p := min (max (max thr.x (max thr.y thr.z)) (1/20)) (19/20)
    if rr > p then none else some (Vec3.divs thr p)
  else some thr

/-- One iteration of the `estimate_radiance` loop; the returned Bool is
`true` when the loop continues to the next bounce. -/
def stepPI (len3 : Vec3 ℚ → ℚ) (fgBound : ℕ) (bounce : ℕ) (s : PIState) :
    BounceEvent → PIState × Bool
  | .miss envColor hasDist hasEnv selPdf dirPdf =>
      let env0 := Vec3.mul s.throughput
        (evalEnvironment envColor hasDist hasEnv selPdf dirPdf s.lastPdf s.lastSpec)
      let envL := if bounce > 0 then clampRadiance len3 env0 5 else env0
      ({ s with radiance := Vec3.add s.radiance envL }, false)
  | .emissive emitted hasDist lightId selPdf areaPdf =>
      if s.inCaustic then (s, false)
      else
        let e0 := Vec3.mul s.throughput
          (evalEmission emitted hasDist lightId selPdf areaPdf s.lastPdf s.lastSpec)
        let e := if bounce > 0 then clampRadiance len3 e0 5 else e0
        ({ s with radiance := Vec3.add s.radiance e }, false)
  | .noScatter => (s, false)
  | .spec att rr =>
      let inC := if !s.lastSpec then true else s.inCaustic
      let thr := Vec3.mul s.throughput att
      match russianRoulette bounce thr rr with
      | none =>
          ({ s with throughput := thr, inCaustic := inC, lastSpec := true, lastPdf := 1 }, false)
      | some thr2 =>
          ({ s with throughput := thr2, inCaustic := inC, lastSpec := true, lastPdf := 1 }, true)
  | .diff nee caustic glob fr cosDot pdf rr =>
      if s.inCaustic then
        if pdf ≤ EPSILON then (s, false)
        else
          let cosTheta := |cosDot|
          let thr := Vec3.mul s.throughput (Vec3.divs (Vec3.smul cosTheta fr) pdf)
          match russianRoulette bounce thr rr with
          | none =>
              ({ s with throughput := thr, lastSpec := false, lastPdf := pdf }, false)
          | some thr2 =>
              ({ s with throughput := thr2, lastSpec := false, lastPdf := pdf }, true)
      else
        let l1 := Vec3.add s.radiance (Vec3.mul s.throughput (clampRadiance len3 nee 5))
        let l2 := Vec3.add l1 (Vec3.mul s.throughput (clampRadiance len3 caustic 5))
        if bounce ≥ fgBound then
          ({ s with radiance := Vec3.add l2 (Vec3.mul s.throughput (clampRadiance len3 glob 5)) }, false)
        else
          if pdf ≤ EPSILON then ({ s with radiance := l2 }, false)
          else
            let cosTheta := |cosDot|
            let thr := Vec3.mul s.throughput (Vec3.divs (Vec3.smul cosTheta fr) pdf)
            match russianRoulette bounce thr rr with
            | none =>
                ({ s with radiance := l2, throughput := thr, lastSpec := false, lastPdf := pdf }, false)
            | some thr2 =>
                ({ s with radiance := l2, throughput := thr2, lastSpec := false, lastPdf := pdf }, true)

/-- The `for (bounce …)` loop of `estimate_radiance`: run events until a
break or until `max_depth` (the list length) is exhausted. -/
def runPI (len3 : Vec3 ℚ → ℚ) (fgBound : ℕ) : ℕ → PIState → List BounceEvent → PIState
  | _, s, [] => s
  | bounce, s, e :: rest =>
      let r := stepPI len3 fgBound bounce s e
      if r.2 then runPI len3 fgBound (bounce + 1) r.1 rest else r.1

/-- `estimate_radiance` proper: run from `L = 0`, `throughput = 1`,
`in_caustic_path = false`, `last_bounce_specular = true`,
`last_bsdf_pdf = 0`. -/
def estimateRadiancePM (len3 : Vec3 ℚ → ℚ) (fgBound : ℕ)
    (events : List BounceEvent) : Vec3 ℚ :=
  (runPI len3 fgBound 0 ⟨⟨0, 0, 0⟩, ⟨1, 1, 1⟩, false, true, 0⟩ events).radiance

/-- The environment contribution a miss adds to `L`: it reads the
throughput, `last_bsdf_pdf` and `last_bounce_specular` — and not the
`in_caustic_path` flag. -/
def envContribution (len3 : Vec3 ℚ → ℚ) (bounce : ℕ) (thr : Vec3 ℚ)
    (lastPdf : ℚ) (lastSpec : Bool) (envColor : Vec3 ℚ) (hasDist hasEnv : Bool)
    (selPdf dirPdf : ℚ) : Vec3 ℚ :=
  let env0 := Vec3.mul thr (evalEnvironment envColor hasDist hasEnv selPdf dirPdf lastPdf lastSpec)
  if bounce > 0 then clampRadiance len3 env0 5 else env0

lemma stepPI_preserves_caustic (len3 : Vec3 ℚ → ℚ) (fg bounce : ℕ)
    (s : PIState) (e : BounceEvent) (h : s.inCaustic = true) :
    (stepPI len3 fg bounce s e).1.inCaustic = true := by
  cases e with
  | miss a b c d e2 => simpa [stepPI] using h
  | emissive a b c d e2 => simp [stepPI, h]
  | noScatter => simpa [stepPI] using h
  | spec att rr =>
    have hin : (if !s.lastSpec then true else s.inCaustic) = true := by
      cases hs : s.lastSpec <;> simp [h]
    simp only [stepPI]
    cases hrr : russianRoulette bounce (Vec3.mul s.throughput att) rr <;>
      simp [hrr, hin] <;> exact Or.inr h
  | diff nee caustic glob fr cosDot pdf rr =>
    simp only [stepPI, h, if_true]
    by_cases hpdf : pdf ≤ EPSILON
    · simp [hpdf, h]
    · simp only [hpdf, if_false]
      cases hrr : russianRoulette bounce
          (Vec3.mul s.throughput (Vec3.divs (Vec3.smul |cosDot| fr) pdf)) rr <;>
        simp [hrr, h]

/-- Claim C3. In `PhotonIntegrator::estimate_radiance`: (i) the
`in_caustic_path` flag is sticky — from any state in which it is set it
remains set after any further sequence of bounces; (ii) an emissive hit
reached while `in_caustic_path` is set contributes nothing: the loop
returns with the state (in particular the accumulated radiance `L`)
exactly as it was; (iii) a miss always adds the MIS-weighted environment
radiance `envContribution` — a value built only from the throughput,
`last_bsdf_pdf` and `last_bounce_specular`, never from
`in_caustic_path`. -/
theorem photon_integrator_sticky_flag (len3 : Vec3 ℚ → ℚ) (fg : ℕ) :
    (∀ (bounce : ℕ) (s : PIState) (events : List BounceEvent),
      s.inCaustic = true → (runPI len3 fg bounce s events).inCaustic = true) ∧
    (∀ (bounce : ℕ) (s : PIState) (rest : List BounceEvent) (emitted : Vec3 ℚ)
        (hasDist : Bool) (lightId : Int) (selPdf areaPdf : ℚ),
      s.inCaustic = true →
      runPI len3 fg bounce s
        (BounceEvent.emissive emitted hasDist lightId selPdf areaPdf :: rest) = s) ∧
    (∀ (bounce : ℕ) (s : PIState) (rest : List BounceEvent) (envColor : Vec3 ℚ)
        (hasDist hasEnv : Bool) (selPdf dirPdf : ℚ),
      (runPI len3 fg bounce s
        (BounceEvent.miss envColor hasDist hasEnv selPdf dirPdf :: rest)).radiance =
        Vec3.add s.radiance (envContribution len3 bounce s.throughput s.lastPdf
          s.lastSpec envColor hasDist hasEnv selPdf dirPdf)) := by
  refine ⟨?sticky, ?discard, ?env⟩
  case sticky =>
    intro bounce s events
    induction events generalizing bounce s with
    | nil => intro h; simpa [runPI] using h
    | cons e rest ih =>
      intro h
      simp only [runPI]
      by_cases hc : (stepPI len3 fg bounce s e).2
      · simp only [hc, if_true]
        exact ih (bounce + 1) _ (stepPI_preserves_caustic len3 fg bounce s e h)
      · simp only [hc, if_false]
        exact stepPI_preserves_caustic len3 fg bounce s e h
  case discard =>
    intro bounce s rest emitted hasDist lightId selPdf areaPdf h
    simp [runPI, stepPI, h]
  case env =>
    intro bounce s rest envColor hasDist hasEnv selPdf dirPdf
    simp [runPI, stepPI, envContribution]

/-- Witness for claim C3 at a concrete caustic-path state: a specular
bounce keeps the flag set, and an emissive hit leaves the state (and so
the returned radiance) untouched. -/
theorem photon_integrator_sticky_flag_witness :
    (runPI (fun _ => 0) 2 1 ⟨⟨0, 0, 0⟩, ⟨1, 1, 1⟩, true, false, 1/2⟩
        [BounceEvent.spec ⟨1, 1, 1⟩ 0]).inCaustic = true ∧
    runPI (fun _ => 0) 2 1 ⟨⟨0, 0, 0⟩, ⟨1, 1, 1⟩, true, false, 1/2⟩
        [BounceEvent.emissive ⟨5, 5, 5⟩ true 0 (1/2) (1/3)] =
      ⟨⟨0, 0, 0⟩, ⟨1, 1, 1⟩, true, false, 1/2⟩ :=
  ⟨(photon_integrator_sticky_flag (fun _ => 0) 2).1 1
      ⟨⟨0, 0, 0⟩, ⟨1, 1, 1⟩, true, false, 1/2⟩ [BounceEvent.spec ⟨1, 1, 1⟩ 0] rfl,
   (photon_integrator_sticky_flag (fun _ => 0) 2).2.1 1
      ⟨⟨0, 0, 0⟩, ⟨1, 1, 1⟩, true, false, 1/2⟩ [] ⟨5, 5, 5⟩ true 0 (1/2) (1/3) rfl⟩

/-!
BVH versus linear sweep (`src/accel/BVH.hpp` and `Scene::intersect` of
`src/scene/scene.hpp`).

A primitive is abstracted BY ITS BEHAVIOUR ALONG THE FIXED QUERY RAY:
`hits` is the set of ray parameters at which `Object::intersect` reports
a hit, and the primitive's `intersect(r, t_min, t_max)` returns its
nearest hit parameter inside `[t_min, t_max]` (primitives reject
`root < t_min || root > t_max`, both bounds inclusive), together with
the primitive's identity; `box` is the primitive's `bounding_box`
(every object is assumed to have one, as the claim requires).  Both the
BVH traversal and the linear sweep of `Scene::intersect` are translated
on top of this contract.
-/

/-- The box of the union of two boxes, `surrounding_box`
(`src/accel/AABB.hpp` lines 56-66). -/
def surroundingBox (b0 b1 : Aabb) : Aabb :=
  ⟨Vec3.cmin b0.mn b1.mn, Vec3.cmax b0.mx b1.mx⟩

/-- A primitive, abstracted along the fixed query ray. -/
structure AObj where
  hits : List ℚ
  box : Aabb
  oid : ℕ
deriving DecidableEq, Repr

/-- `Object::intersect` contract along the ray: the nearest hit
parameter within the inclusive range `[a, c]`, with the object's
identity, or `none`. -/
def objIntersect (ob : AObj) (a c : ℚ) : Option (ℚ × ℕ) :=
  match ob.hits.filter (fun t => decide (a ≤ t) && decide (t ≤ c)) with
  | [] => none
  | t :: ts => some (ts.foldl min t, ob.oid)

/-- The linear sweep of `Scene::intersect` (`src/scene/scene.hpp` lines
86-98): fold over the object list, shortening `closest_so_far` to the
latest hit's `t` and replacing the record. -/
def sweepAux : List AObj → ℚ → ℚ → Option (ℚ × ℕ) → Option (ℚ × ℕ)
  | [], _, _, cur => cur
  | ob :: rest, a, c, cur =>
      match objIntersect ob a c with
      | some h => sweepAux rest a h.1 (some h)
      | none => sweepAux rest a c cur

/-- `Scene::intersect` without a BVH: start from `closest_so_far = t_max`
and no record. -/
def sweepIntersect (os : List AObj) (a c : ℚ) : Option (ℚ × ℕ) :=
  sweepAux os a c none

/-- A built BVH: leaves are primitives, inner nodes carry the box and
split axis of `BVHNode` (`left`, `right`, `box`, `split_axis`). -/
inductive BvhTree
  | leaf (ob : AObj)
  | node (l r : BvhTree) (box : Aabb) (ax : Fin 3)
deriving DecidableEq, Repr

/-- The node's own box (`BVHNode::bounding_box`); a leaf answers with the
primitive's box. -/
def treeBox : BvhTree → Aabb
  | .leaf ob => ob.box
  | .node _ _ bx _ => bx

/-- `BVHNode::intersect` (`src/accel/BVH.hpp` lines 84-106): box test,
front-to-back child order decided by the sign of the direction along the
split axis, second child shortened to the first child's hit.  The two
symmetric orders are written out so the recursion is structural. -/
def treeIntersect (o d : Vec3 ℚ) : BvhTree → ℚ → ℚ → Option (ℚ × ℕ)
  | .leaf ob, a, c => objIntersect ob a c
  | .node l r bx ax, a, c =>
      if aabbHit bx o d a c then
        if 0 ≤ Vec3.nth d ax then
          match treeIntersect o d l a c with
          | some h1 =>
              match treeIntersect o d r a h1.1 with
              | some h2 => some h2
              | none => some h1
          | none => treeIntersect o d r a c
        else
          match treeIntersect o d r a c with
          | some h1 =>
              match treeIntersect o d l a h1.1 with
              | some h2 => some h2
              | none => some h1
          | none => treeIntersect o d l a c
      else none

/-- The `BVHNode` constructor comparator: lower bound of the bounding
box along the chosen axis. -/
def objLess (ax : Fin 3) (o1 o2 : AObj) : Bool :=
  decide (Vec3.nth o1.box.mn ax < Vec3.nth o2.box.mn ax)

/-- The recursive `BVHNode` constructor (`src/accel/BVH.hpp` lines
26-79): the stream `axs` supplies the outcomes of `random_int(0, 2)` in
recursion order (exhausted stream defaults to axis 0, which a caller can
avoid by supplying enough entries); one object duplicates the child
pointer; two objects are ordered by the comparator; three or more are
sorted by it, split at `span / 2`, and built recursively.  `std::sort`
is rendered as a stable merge sort — the construction is compared with
the sweep only up to the permutation invariant, which any sort
satisfies.  One draw of `random_int(0, 2)` from the supply is `axHead`
(default axis 0 when the supply is exhausted); `axTail` is the remaining
supply. -/
def axHead : List (Fin 3) → Fin 3
  | [] => 0
  | a :: _ => a

/-- The remaining supply after one draw. -/
def axTail : List (Fin 3) → List (Fin 3)
  | [] => []
  | _ :: t => t

def buildBvh : List (Fin 3) → List AObj → BvhTree × List (Fin 3)
  | axs, [] => (.leaf ⟨[], ⟨⟨0, 0, 0⟩, ⟨0, 0, 0⟩⟩, 0⟩, axTail axs)
  | axs, [ob] =>
      (.node (.leaf ob) (.leaf ob) (surroundingBox ob.box ob.box) (axHead axs),
        axTail axs)
  | axs, [o1, o2] =>
      if objLess (axHead axs) o1 o2 then
        (.node (.leaf o1) (.leaf o2) (surroundingBox o1.box o2.box) (axHead axs),
          axTail axs)
      else
        (.node (.leaf o2) (.leaf o1) (surroundingBox o2.box o1.box) (axHead axs),
          axTail axs)
  | axs, o1 :: o2 :: o3 :: rest =>
      let sorted := (o1 :: o2 :: o3 :: rest).mergeSort (objLess (axHead axs))
      let mid := (o1 :: o2 :: o3 :: rest).length / 2
      let p1 := buildBvh (axTail axs) (sorted.take mid)
      let p2 := buildBvh p1.2 (sorted.drop mid)
      (.node p1.1 p2.1 (surroundingBox (treeBox p1.1) (treeBox p2.1)) (axHead axs),
        p2.2)
termination_by _ objs => objs.length
decreasing_by
  all_goals simp [List.length_take, List.length_mergeSort, List.length_drop]
  all_goals omega

/-- Well-formedness of a built BVH over a list of primitives: the leaves
are the list up to permutation (with the single-object node duplicating
its unique leaf), and every inner box is the surrounding box of its
children's boxes — exactly what the constructor establishes when every
object has a bounding box. -/
inductive TreeWF : BvhTree → List AObj → Prop
  | leaf (ob : AObj) : TreeWF (.leaf ob) [ob]
  | single (ob : AObj) (ax : Fin 3) :
      TreeWF (.node (.leaf ob) (.leaf ob) (surroundingBox ob.box ob.box) ax) [ob]
  | node (l r : BvhTree) (ax : Fin 3) (os os1 os2 : List AObj) :
      TreeWF l os1 → TreeWF r os2 → os.Perm (os1 ++ os2) →
      TreeWF (.node l r (surroundingBox (treeBox l) (treeBox r)) ax) os

lemma buildBvh_wf (n : ℕ) : ∀ (axs : List (Fin 3)) (objs : List AObj),
    objs.length ≤ n → objs ≠ [] → TreeWF (buildBvh axs objs).1 objs := by
  induction n with
  | zero =>
    intro axs objs hlen hne
    cases objs with
    | nil => exact absurd rfl hne
    | cons a t => simp at hlen
  | succ m ih =>
    intro axs objs hlen hne
    match objs with
    | [ob] =>
      simp only [buildBvh]
      exact TreeWF.single ob _
    | [o1, o2] =>
      simp only [buildBvh]
      by_cases hc : objLess (axHead axs) o1 o2 = true
      · rw [if_pos hc]
        exact TreeWF.node (.leaf o1) (.leaf o2) _ [o1, o2] [o1] [o2]
          (TreeWF.leaf o1) (TreeWF.leaf o2) (List.Perm.refl _)
      · rw [if_neg hc]
        exact TreeWF.node (.leaf o2) (.leaf o1) _ [o1, o2] [o2] [o1]
          (TreeWF.leaf o2) (TreeWF.leaf o1) (List.Perm.swap o1 o2 []).symm
    | o1 :: o2 :: o3 :: rest =>
      simp only [buildBvh]
      set sorted := (o1 :: o2 :: o3 :: rest).mergeSort (objLess (axHead axs)) with hsorted
      set mid := (o1 :: o2 :: o3 :: rest).length / 2 with hmidval
      set p1 := buildBvh (axTail axs) (List.take mid sorted) with hp1
      set p2 := buildBvh p1.2 (List.drop mid sorted) with hp2
      have hsortperm : sorted.Perm (o1 :: o2 :: o3 :: rest) := List.mergeSort_perm _ _
      have hsortlen : sorted.length = (o1 :: o2 :: o3 :: rest).length :=
        hsortperm.length_eq
      have hlen3 : 3 ≤ (o1 :: o2 :: o3 :: rest).length := by simp
      have hwfl : TreeWF p1.1 (List.take mid sorted) := by
        apply ih
        · rw [List.length_take, hsortlen, hmidval]
          have hlm : (o1 :: o2 :: o3 :: rest).length ≤ m + 1 := hlen
          omega
        · intro hnil
          have hl0 := congrArg List.length hnil
          rw [List.length_take, hsortlen, hmidval] at hl0
          simp only [List.length_nil] at hl0
          omega
      have hwfr : TreeWF p2.1 (List.drop mid sorted) := by
        apply ih
        · rw [List.length_drop, hsortlen, hmidval]
          have hlm : (o1 :: o2 :: o3 :: rest).length ≤ m + 1 := hlen
          omega
        · intro hnil
          have hl0 := congrArg List.length hnil
          rw [List.length_drop, hsortlen, hmidval] at hl0
          simp only [List.length_nil] at hl0
          omega
      have hperm : (o1 :: o2 :: o3 :: rest).Perm
          (List.take mid sorted ++ List.drop mid sorted) := by
        rw [List.take_append_drop]
        exact hsortperm.symm
      exact TreeWF.node p1.1 p2.1 (axHead axs) (o1 :: o2 :: o3 :: rest)
        (List.take mid sorted) (List.drop mid sorted) hwfl hwfr hperm

lemma foldlMin_le_acc (l : List ℚ) (acc : ℚ) : l.foldl min acc ≤ acc := by
  induction l generalizing acc with
  | nil => simp
  | cons x rest ih =>
    simp only [List.foldl_cons]
    exact le_trans (ih _) (min_le_left _ _)

lemma foldlMin_le_mem (l : List ℚ) (acc : ℚ) (x : ℚ) (hx : x ∈ l) :
    l.foldl min acc ≤ x := by
  induction l generalizing acc with
  | nil => simp at hx
  | cons y rest ih =>
    simp only [List.foldl_cons]
    rcases List.mem_cons.mp hx with heq | hmem
    · rw [heq]
      exact le_trans (foldlMin_le_acc _ _) (min_le_right _ _)
    · exact ih _ hmem

lemma foldlMin_cases (l : List ℚ) (acc : ℚ) :
    l.foldl min acc = acc ∨ ∃ x ∈ l, l.foldl min acc = x := by
  induction l generalizing acc with
  | nil => left; rfl
  | cons y rest ih =>
    simp only [List.foldl_cons]
    rcases ih (min acc y) with h | ⟨x, hx, hval⟩
    · rcases le_or_lt acc y with hle | hlt
      · left
        rw [h, min_eq_left hle]
      · right
        refine ⟨y, List.mem_cons_self _ _, ?_⟩
        rw [h, min_eq_right (le_of_lt hlt)]
    · right
      exact ⟨x, List.mem_cons_of_mem _ hx, hval⟩

lemma mem_hits_filter (ob : AObj) (a c t : ℚ) :
    t ∈ ob.hits.filter (fun t => decide (a ≤ t) && decide (t ≤ c)) ↔
      t ∈ ob.hits ∧ a ≤ t ∧ t ≤ c := by
  simp [List.mem_filter]

lemma objIntersect_some_spec (ob : AObj) (a c t : ℚ) (i : ℕ)
    (h : objIntersect ob a c = some (t, i)) :
    i = ob.oid ∧ t ∈ ob.hits ∧ a ≤ t ∧ t ≤ c ∧
      (∀ t2 ∈ ob.hits, a ≤ t2 → t2 ≤ c → t ≤ t2) := by
  unfold objIntersect at h
  cases hf : ob.hits.filter (fun t => decide (a ≤ t) && decide (t ≤ c)) with
  | nil =>
    rw [hf] at h
    simp at h
  | cons t0 ts =>
    rw [hf] at h
    simp only [Option.some.injEq, Prod.mk.injEq] at h
    obtain ⟨hval, hoid⟩ := h
    have hmem : t ∈ t0 :: ts := by
      rcases foldlMin_cases ts t0 with hcase | ⟨x, hx, hxval⟩
      · rw [← hval, hcase]
        exact List.mem_cons_self _ _
      · rw [← hval, hxval]
        exact List.mem_cons_of_mem _ hx
    have hfmem : t ∈ ob.hits.filter (fun t => decide (a ≤ t) && decide (t ≤ c)) := by
      rw [hf]
      exact hmem
    obtain ⟨hhits, hat, htc⟩ := (mem_hits_filter ob a c t).mp hfmem
    refine ⟨hoid.symm, hhits, hat, htc, ?min⟩
    intro t2 h2 ha2 hc2
    have h2f : t2 ∈ t0 :: ts := by
      rw [← hf]
      exact (mem_hits_filter ob a c t2).mpr ⟨h2, ha2, hc2⟩
    rcases List.mem_cons.mp h2f with heq | hmem2
    · rw [heq, ← hval]
      exact foldlMin_le_acc _ _
    · rw [← hval]
      exact foldlMin_le_mem _ _ _ hmem2

lemma objIntersect_none_spec (ob : AObj) (a c : ℚ)
    (h : objIntersect ob a c = none) :
    ∀ t2 ∈ ob.hits, a ≤ t2 → t2 ≤ c → False := by
  intro t2 h2 ha2 hc2
  unfold objIntersect at h
  cases hf : ob.hits.filter (fun t => decide (a ≤ t) && decide (t ≤ c)) with
  | nil =>
    have : t2 ∈ ob.hits.filter (fun t => decide (a ≤ t) && decide (t ≤ c)) :=
      (mem_hits_filter ob a c t2).mpr ⟨h2, ha2, hc2⟩
    rw [hf] at this
    simp at this
  | cons t0 ts =>
    rw [hf] at h
    simp at h

/-- A hit candidate: some object of the list with identity `i` reports a
hit at parameter `t` inside the inclusive range `[a, c]`. -/
def isCand (os : List AObj) (a c t : ℚ) (i : ℕ) : Prop :=
  ∃ ob ∈ os, ob.oid = i ∧ t ∈ ob.hits ∧ a ≤ t ∧ t ≤ c

/-- Specification of a BVH node's answer over the primitives it holds:
`none` only when the range is degenerate or empty of candidates; a hit
is a candidate of minimal parameter. -/
def NodeSpec (os : List AObj) (a c : ℚ) : Option (ℚ × ℕ) → Prop
  | none => ∀ t i, isCand os a c t i → c ≤ a
  | some (t, i) => isCand os a c t i ∧ ∀ t2 i2, isCand os a c t2 i2 → t ≤ t2

/-- Specification of the linear sweep's answer: `none` exactly when
there is no candidate; a hit is a candidate of minimal parameter. -/
def SweepSpec (os : List AObj) (a c : ℚ) : Option (ℚ × ℕ) → Prop
  | none => ∀ t i, isCand os a c t i → False
  | some (t, i) => isCand os a c t i ∧ ∀ t2 i2, isCand os a c t2 i2 → t ≤ t2

lemma isCand_widen (os : List AObj) (ob : AObj) (a c c2 t : ℚ) (i : ℕ)
    (h : isCand os a c2 t i) (hcc : c2 ≤ c) : isCand (ob :: os) a c t i := by
  obtain ⟨o, ho, hoid, hhits, hat, htc⟩ := h
  exact ⟨o, List.mem_cons_of_mem _ ho, hoid, hhits, hat, le_trans htc hcc⟩

lemma isCand_tail (os : List AObj) (ob : AObj) (a c t : ℚ) (i : ℕ)
    (h : isCand os a c t i) : isCand (ob :: os) a c t i := by
  obtain ⟨o, ho, hoid, hhits, hat, htc⟩ := h
  exact ⟨o, List.mem_cons_of_mem _ ho, hoid, hhits, hat, htc⟩

lemma sweepAux_spec (os : List AObj) : ∀ (a c : ℚ) (cur : Option (ℚ × ℕ)),
    (cur = none ∨ ∃ i0, cur = some (c, i0)) →
    ((sweepAux os a c cur = none →
        cur = none ∧ ∀ t i, isCand os a c t i → False) ∧
     (∀ t i, sweepAux os a c cur = some (t, i) →
        (cur = some (t, i) ∨ isCand os a c t i) ∧ t ≤ c ∧
        ∀ t2 i2, isCand os a c t2 i2 → t ≤ t2)) := by
  induction os with
  | nil =>
    intro a c cur hcur
    constructor
    · intro hres
      refine ⟨by simpa [sweepAux] using hres, ?_⟩
      intro t i hcand
      obtain ⟨o, ho, _⟩ := hcand
      simp at ho
    · intro t i hres
      simp only [sweepAux] at hres
      refine ⟨Or.inl hres, ?_, ?_⟩
      · rcases hcur with hc0 | ⟨i0, hc0⟩
        · rw [hc0] at hres; simp at hres
        · rw [hc0] at hres
          simp only [Option.some.injEq, Prod.mk.injEq] at hres
          rw [← hres.1]
      · intro t2 i2 hcand
        obtain ⟨o, ho, _⟩ := hcand
        simp at ho
  | cons ob rest ih =>
    intro a c cur hcur
    cases hobj : objIntersect ob a c with
    | some h1 =>
      obtain ⟨hoid1, hhits1, hat1, htc1, hmin1⟩ :=
        objIntersect_some_spec ob a c h1.1 h1.2 (by rw [hobj])
      have hcand1 : isCand (ob :: rest) a c h1.1 h1.2 :=
        ⟨ob, List.mem_cons_self _ _, hoid1.symm, hhits1, hat1, htc1⟩
      have hrec := ih a h1.1 (some h1) (Or.inr ⟨h1.2, rfl⟩)
      constructor
      · intro hres
        simp only [sweepAux, hobj] at hres
        obtain ⟨hcontra, _⟩ := hrec.1 hres
        simp at hcontra
      · intro t i hres
        simp only [sweepAux, hobj] at hres
        obtain ⟨hfrom, htc2, hmin2⟩ := hrec.2 t i hres
        have htc3 : t ≤ c := le_trans htc2 htc1
        have hcnd : isCand (ob :: rest) a c t i := by
          rcases hfrom with hc1 | hc2
          · have h1e : h1 = (t, i) := Option.some.inj hc1
            rw [h1e] at hcand1
            exact hcand1
          · exact isCand_widen rest ob a c h1.1 t i hc2 htc1
        refine ⟨Or.inr hcnd, htc3, ?_⟩
        intro t2 i2 hcand2
        obtain ⟨o2, ho2, hoid2, hhits2, hat2, htc2b⟩ := hcand2
        rcases List.mem_cons.mp ho2 with heq2 | hmem2
        · have hge : h1.1 ≤ t2 := by
            apply hmin1 t2
            · rw [heq2] at hhits2
              exact hhits2
            · exact hat2
            · exact htc2b
          exact le_trans htc2 hge
        · rcases le_or_lt t2 h1.1 with hle | hlt
          · exact hmin2 t2 i2 ⟨o2, hmem2, hoid2, hhits2, hat2, hle⟩
          · exact le_trans htc2 (le_of_lt hlt)
    | none =>
      have hnone := objIntersect_none_spec ob a c (by rw [hobj])
      have hrec := ih a c cur hcur
      constructor
      · intro hres
        simp only [sweepAux, hobj] at hres
        obtain ⟨hc0, hnc⟩ := hrec.1 hres
        refine ⟨hc0, ?_⟩
        intro t i hcand
        obtain ⟨o, ho, hoid, hhits, hat, htc⟩ := hcand
        rcases List.mem_cons.mp ho with heq | hmem
        · exact hnone t (heq ▸ hhits) hat htc
        · exact hnc t i ⟨o, hmem, hoid, hhits, hat, htc⟩
      · intro t i hres
        simp only [sweepAux, hobj] at hres
        obtain ⟨hfrom, htc2, hmin2⟩ := hrec.2 t i hres
        refine ⟨?_, htc2, ?_⟩
        · rcases hfrom with hc1 | hc2
          · exact Or.inl hc1
          · exact Or.inr (isCand_tail rest ob a c t i hc2)
        · intro t2 i2 hcand2
          obtain ⟨o2, ho2, hoid2, hhits2, hat2, htc2b⟩ := hcand2
          rcases List.mem_cons.mp ho2 with heq2 | hmem2
          · exact absurd (hnone t2 (heq2 ▸ hhits2) hat2 htc2b) not_false
          · exact hmin2 t2 i2 ⟨o2, hmem2, hoid2, hhits2, hat2, htc2b⟩

lemma sweepIntersect_spec (os : List AObj) (a c : ℚ) :
    SweepSpec os a c (sweepIntersect os a c) := by
  have h := sweepAux_spec os a c none (Or.inl rfl)
  unfold sweepIntersect
  cases hres : sweepAux os a c none with
  | none =>
    simp only [SweepSpec]
    intro t i hcand
    exact (h.1 hres).2 t i hcand
  | some p =>
    obtain ⟨hfrom, _, hmin⟩ := h.2 p.1 p.2 (by rw [hres])
    simp only [SweepSpec]
    rcases hfrom with hc1 | hc2
    · simp at hc1
    · exact ⟨hc2, hmin⟩

/-- Componentwise box containment (the inner box lies inside the outer). -/
def boxContains (inner outer : Aabb) : Prop :=
  outer.mn.x ≤ inner.mn.x ∧ inner.mx.x ≤ outer.mx.x ∧
  outer.mn.y ≤ inner.mn.y ∧ inner.mx.y ≤ outer.mx.y ∧
  outer.mn.z ≤ inner.mn.z ∧ inner.mx.z ≤ outer.mx.z

lemma boxContains_refl (b : Aabb) : boxContains b b :=
  ⟨le_refl _, le_refl _, le_refl _, le_refl _, le_refl _, le_refl _⟩

lemma boxContains_left (b0 b1 : Aabb) : boxContains b0 (surroundingBox b0 b1) := by
  unfold boxContains surroundingBox Vec3.cmin Vec3.cmax
  exact ⟨min_le_left _ _, le_max_left _ _, min_le_left _ _, le_max_left _ _,
    min_le_left _ _, le_max_left _ _⟩

lemma boxContains_right (b0 b1 : Aabb) : boxContains b1 (surroundingBox b0 b1) := by
  unfold boxContains surroundingBox Vec3.cmin Vec3.cmax
  exact ⟨min_le_right _ _, le_max_right _ _, min_le_right _ _, le_max_right _ _,
    min_le_right _ _, le_max_right _ _⟩

lemma boxContains_trans {b1 b2 b3 : Aabb} (h12 : boxContains b1 b2)
    (h23 : boxContains b2 b3) : boxContains b1 b3 := by
  obtain ⟨a1, a2, a3, a4, a5, a6⟩ := h12
  obtain ⟨c1, c2, c3, c4, c5, c6⟩ := h23
  exact ⟨le_trans c1 a1, le_trans a2 c2, le_trans c3 a3, le_trans a4 c4,
    le_trans c5 a5, le_trans a6 c6⟩

lemma insideOpen_iff (b : Aabb) (p : Vec3 ℚ) :
    insideOpen b p = true ↔
      (b.mn.x < p.x ∧ p.x < b.mx.x) ∧ (b.mn.y < p.y ∧ p.y < b.mx.y) ∧
      (b.mn.z < p.z ∧ p.z < b.mx.z) := by
  simp only [insideOpen, Bool.and_eq_true, decide_eq_true_eq]
  tauto

lemma insideOpen_mono {b1 b2 : Aabb} (p : Vec3 ℚ) (hc : boxContains b1 b2)
    (h : insideOpen b1 p = true) : insideOpen b2 p = true := by
  rw [insideOpen_iff] at h ⊢
  obtain ⟨⟨h1, h2⟩, ⟨h3, h4⟩, ⟨h5, h6⟩⟩ := h
  obtain ⟨c1, c2, c3, c4, c5, c6⟩ := hc
  exact ⟨⟨lt_of_le_of_lt c1 h1, lt_of_lt_of_le h2 c2⟩,
    ⟨lt_of_le_of_lt c3 h3, lt_of_lt_of_le h4 c4⟩,
    ⟨lt_of_le_of_lt c5 h5, lt_of_lt_of_le h6 c6⟩⟩

lemma treeWF_box {tr : BvhTree} {os : List AObj} (hwf : TreeWF tr os) :
    ∀ ob ∈ os, boxContains ob.box (treeBox tr) := by
  induction hwf with
  | leaf ob =>
    intro o2 ho2
    rcases List.mem_singleton.mp ho2 with rfl
    exact boxContains_refl _
  | single ob ax =>
    intro o2 ho2
    rcases List.mem_singleton.mp ho2 with rfl
    exact boxContains_left _ _
  | node l r ax os os1 os2 hl hr hperm ihl ihr =>
    intro o2 ho2
    rcases List.mem_append.mp (hperm.mem_iff.mp ho2) with h1 | h2
    · exact boxContains_trans (ihl o2 h1) (boxContains_left _ _)
    · exact boxContains_trans (ihr o2 h2) (boxContains_right _ _)

lemma insideOpen_slab_hit (b : Aabb) (o d : Vec3 ℚ) (a c t : ℚ)
    (hdx : d.x ≠ 0) (hdy : d.y ≠ 0) (hdz : d.z ≠ 0)
    (hin : insideOpen b (rayAt o d t) = true)
    (hat : a ≤ t) (htc : t ≤ c) (hac : a < c) :
    aabbHit b o d a c = true := by
  rw [insideOpen_iff] at hin
  obtain ⟨⟨hx1, hx2⟩, ⟨hy1, hy2⟩, ⟨hz1, hz2⟩⟩ := hin
  simp only [rayAt] at hx1 hx2 hy1 hy2 hz1 hz2
  have hbx : b.mn.x ≤ b.mx.x := le_of_lt (lt_trans hx1 hx2)
  have hby : b.mn.y ≤ b.mx.y := le_of_lt (lt_trans hy1 hy2)
  have hbz : b.mn.z ≤ b.mx.z := le_of_lt (lt_trans hz1 hz2)
  have hx := (slab_axis_iff hdx hbx).mpr ⟨hx1, hx2⟩
  have hy := (slab_axis_iff hdy hby).mpr ⟨hy1, hy2⟩
  have hz := (slab_axis_iff hdz hbz).mpr ⟨hz1, hz2⟩
  simp only [aabbHit, Vec3.inv, Vec3.mul, Vec3.sub, Vec3.cmin, Vec3.cmax,
    decide_eq_true_eq]
  rcases lt_or_eq_of_le hat with hlt | heq
  · exact lt_of_lt_of_le
      (max_lt hlt (max_lt hx.1 (max_lt hy.1 hz.1)))
      (le_min htc (le_min (le_of_lt hx.2) (le_min (le_of_lt hy.2) (le_of_lt hz.2))))
  · have htc2 : t < c := heq ▸ hac
    exact lt_of_le_of_lt
      (max_le (le_of_eq heq)
        (max_le (le_of_lt hx.1) (max_le (le_of_lt hy.1) (le_of_lt hz.1))))
      (lt_min htc2 (lt_min hx.2 (lt_min hy.2 hz.2)))

lemma objIntersect_nodeSpec (ob : AObj) (a c : ℚ) :
    NodeSpec [ob] a c (objIntersect ob a c) := by
  cases hres : objIntersect ob a c with
  | none =>
    simp only [NodeSpec]
    intro t i hcand
    obtain ⟨o2, ho2, _, hhits, hat, htc⟩ := hcand
    rcases List.mem_singleton.mp ho2 with rfl
    exact (objIntersect_none_spec o2 a c hres t hhits hat htc).elim
  | some p =>
    obtain ⟨t, i⟩ := p
    obtain ⟨hoid, hhits, hat, htc, hmin⟩ := objIntersect_some_spec ob a c t i hres
    simp only [NodeSpec]
    refine ⟨⟨ob, List.mem_singleton_self _, hoid.symm, hhits, hat, htc⟩, ?_⟩
    intro t2 i2 hcand
    obtain ⟨o2, ho2, _, hhits2, hat2, htc2⟩ := hcand
    rcases List.mem_singleton.mp ho2 with rfl
    exact hmin t2 hhits2 hat2 htc2

lemma nodeSpec_seq (os os1 os2 : List AObj) (a c : ℚ)
    (r1 : Option (ℚ × ℕ)) (g : ℚ → Option (ℚ × ℕ)) (res : Option (ℚ × ℕ))
    (hres : res = match r1 with
      | some h1 => (match g h1.1 with | some h2 => some h2 | none => some h1)
      | none => g c)
    (hf : NodeSpec os1 a c r1)
    (hg : ∀ c2, NodeSpec os2 a c2 (g c2))
    (hmem : ∀ t i, isCand os a c t i ↔ isCand os1 a c t i ∨ isCand os2 a c t i) :
    NodeSpec os a c res := by
  cases r1 with
  | none =>
    have hres2 : res = g c := hres
    cases hgc : g c with
    | none =>
      rw [hgc] at hres2
      subst hres2
      have hg2 := hg c
      rw [hgc] at hg2
      simp only [NodeSpec] at hf hg2 ⊢
      intro t i hcand
      rcases (hmem t i).mp hcand with h1 | h2
      · exact hf t i h1
      · exact hg2 t i h2
    | some p =>
      obtain ⟨t2, i2⟩ := p
      rw [hgc] at hres2
      subst hres2
      have hg2 := hg c
      rw [hgc] at hg2
      simp only [NodeSpec] at hf hg2 ⊢
      obtain ⟨hcand2, hmin2⟩ := hg2
      refine ⟨(hmem t2 i2).mpr (Or.inr hcand2), ?_⟩
      intro t3 i3 hcand3
      rcases (hmem t3 i3).mp hcand3 with h1 | h2
      · have hca := hf t3 i3 h1
        obtain ⟨o3, _, _, _, hat3, _⟩ := h1
        obtain ⟨o2m, _, _, _, _, htc2⟩ := hcand2
        exact le_trans htc2 (le_trans hca hat3)
      · exact hmin2 t3 i3 h2
  | some h1 =>
    obtain ⟨t1, i1⟩ := h1
    have hres2 : res = (match g t1 with
        | some h2 => some h2 | none => some (t1, i1)) := hres
    have hg2 := hg t1
    simp only [NodeSpec] at hf
    obtain ⟨hcand1, hmin1⟩ := hf
    cases hg1 : g t1 with
    | none =>
      rw [hg1] at hres2 hg2
      have hres3 : res = some (t1, i1) := hres2
      subst hres3
      simp only [NodeSpec] at hg2 ⊢
      refine ⟨(hmem t1 i1).mpr (Or.inl hcand1), ?_⟩
      intro t3 i3 hcand3
      rcases (hmem t3 i3).mp hcand3 with h1 | h2
      · exact hmin1 t3 i3 h1
      · rcases le_or_lt t3 t1 with hle | hlt
        · obtain ⟨o3, hmo3, hoid3, hhits3, hat3, _⟩ := h2
          have hta := hg2 t3 i3 ⟨o3, hmo3, hoid3, hhits3, hat3, hle⟩
          exact le_trans hta hat3
        · exact le_of_lt hlt
    | some p2 =>
      obtain ⟨t2, i2⟩ := p2
      rw [hg1] at hres2 hg2
      have hres3 : res = some (t2, i2) := hres2
      subst hres3
      simp only [NodeSpec] at hg2 ⊢
      obtain ⟨hcand2, hmin2⟩ := hg2
      obtain ⟨o1m, hmo1, hoido1, hhits1, hat1, htc1⟩ := hcand1
      obtain ⟨o2m, hmo2, hoido2, hhits2, hat2, htc2⟩ := hcand2
      refine ⟨(hmem t2 i2).mpr
        (Or.inr ⟨o2m, hmo2, hoido2, hhits2, hat2, le_trans htc2 htc1⟩), ?_⟩
      intro t3 i3 hcand3
      rcases (hmem t3 i3).mp hcand3 with h1 | h2
      · exact le_trans htc2 (hmin1 t3 i3 h1)
      · rcases le_or_lt t3 t1 with hle | hlt
        · obtain ⟨o3, hmo3, hoid3, hhits3, hat3, _⟩ := h2
          exact hmin2 t3 i3 ⟨o3, hmo3, hoid3, hhits3, hat3, hle⟩
        · exact le_trans htc2 (le_of_lt hlt)

lemma treeIntersect_spec (o d : Vec3 ℚ)
    (hdx : d.x ≠ 0) (hdy : d.y ≠ 0) (hdz : d.z ≠ 0)
    (tr : BvhTree) (os : List AObj) (hwf : TreeWF tr os) :
    (∀ ob ∈ os, ∀ t ∈ ob.hits, insideOpen ob.box (rayAt o d t) = true) →
    ∀ a c, NodeSpec os a c (treeIntersect o d tr a c) := by
  induction hwf with
  | leaf ob =>
    intro _ a c
    show NodeSpec [ob] a c (objIntersect ob a c)
    exact objIntersect_nodeSpec ob a c
  | single ob ax =>
    intro hcov a c
    simp only [treeIntersect]
    by_cases hb : aabbHit (surroundingBox ob.box ob.box) o d a c = true
    · rw [if_pos hb]
      have hmem1 : ∀ t i, isCand [ob] a c t i ↔
          isCand [ob] a c t i ∨ isCand [ob] a c t i :=
        fun t i => ⟨Or.inl, fun h => h.elim id id⟩
      by_cases hdir : (0:ℚ) ≤ Vec3.nth d ax
      · rw [if_pos hdir]
        exact nodeSpec_seq [ob] [ob] [ob] a c (objIntersect ob a c)
          (fun c2 => objIntersect ob a c2) _ rfl (objIntersect_nodeSpec ob a c)
          (fun c2 => objIntersect_nodeSpec ob a c2) hmem1
      · rw [if_neg hdir]
        exact nodeSpec_seq [ob] [ob] [ob] a c (objIntersect ob a c)
          (fun c2 => objIntersect ob a c2) _ rfl (objIntersect_nodeSpec ob a c)
          (fun c2 => objIntersect_nodeSpec ob a c2) hmem1
    · rw [if_neg hb]
      simp only [NodeSpec]
      intro t i hcand
      by_contra hca
      push_neg at hca
      obtain ⟨o2, ho2, _, hhits, hat, htc⟩ := hcand
      rcases List.mem_singleton.mp ho2 with rfl
      have hin := hcov o2 (List.mem_singleton_self _) t hhits
      have hin2 := insideOpen_mono _ (boxContains_left o2.box o2.box) hin
      exact hb (insideOpen_slab_hit _ o d a c t hdx hdy hdz hin2 hat htc hca)
  | node l r ax os os1 os2 hl hr hperm ihl ihr =>
    intro hcov a c
    have hcov1 : ∀ ob ∈ os1, ∀ t ∈ ob.hits, insideOpen ob.box (rayAt o d t) = true :=
      fun ob hob t ht =>
        hcov ob (hperm.mem_iff.mpr (List.mem_append.mpr (Or.inl hob))) t ht
    have hcov2 : ∀ ob ∈ os2, ∀ t ∈ ob.hits, insideOpen ob.box (rayAt o d t) = true :=
      fun ob hob t ht =>
        hcov ob (hperm.mem_iff.mpr (List.mem_append.mpr (Or.inr hob))) t ht
    have hmem : ∀ t i, isCand os a c t i ↔
        isCand os1 a c t i ∨ isCand os2 a c t i := by
      intro t i
      constructor
      · rintro ⟨ob, hob, rest⟩
        rcases List.mem_append.mp (hperm.mem_iff.mp hob) with h1 | h2
        · exact Or.inl ⟨ob, h1, rest⟩
        · exact Or.inr ⟨ob, h2, rest⟩
      · rintro (⟨ob, hob, rest⟩ | ⟨ob, hob, rest⟩)
        · exact ⟨ob, hperm.mem_iff.mpr (List.mem_append.mpr (Or.inl hob)), rest⟩
        · exact ⟨ob, hperm.mem_iff.mpr (List.mem_append.mpr (Or.inr hob)), rest⟩
    simp only [treeIntersect]
    by_cases hb : aabbHit (surroundingBox (treeBox l) (treeBox r)) o d a c = true
    · rw [if_pos hb]
      by_cases hdir : (0:ℚ) ≤ Vec3.nth d ax
      · rw [if_pos hdir]
        exact nodeSpec_seq os os1 os2 a c (treeIntersect o d l a c)
          (fun c2 => treeIntersect o d r a c2) _ rfl (ihl hcov1 a c)
          (fun c2 => ihr hcov2 a c2) hmem
      · rw [if_neg hdir]
        exact nodeSpec_seq os os2 os1 a c (treeIntersect o d r a c)
          (fun c2 => treeIntersect o d l a c2) _ rfl (ihr hcov2 a c)
          (fun c2 => ihl hcov1 a c2)
          (fun t i => (hmem t i).trans or_comm)
    · rw [if_neg hb]
      simp only [NodeSpec]
      intro t i hcand
      by_contra hca
      push_neg at hca
      obtain ⟨ob, hob, _, hhits, hat, htc⟩ := hcand
      have hin := hcov ob hob t hhits
      have hc1 := treeWF_box (TreeWF.node l r ax os os1 os2 hl hr hperm) ob hob
      simp only [treeBox] at hc1
      have hin2 := insideOpen_mono _ hc1 hin
      exact hb (insideOpen_slab_hit _ o d a c t hdx hdy hdz hin2 hat htc hca)

/-- Claim C1. BVH refinement: for every scene whose objects all have
bounding boxes (each `AObj` carries its `bounding_box`) and every ray with
`t_min < t_max` and componentwise nonzero direction, `Scene::intersect`
through the built BVH (`BVHNode::intersect` on the tree produced by the
`BVHNode` constructor, `src/accel/BVH.hpp`) returns the same result as the
linear sweep over the object list that runs when no BVH is built
(`src/scene/scene.hpp` lines 86-98): both miss, or both hit the same
primitive at the same parameter `t` (exact equality over ℚ, the
idealisation of "within floating-point tolerance").  The hypotheses:
`hcov` (every reported hit parameter puts the ray point strictly inside
that object's own bounding box — the geometric contract relating each
`Object::intersect` to its `bounding_box`, strict so that hits grazing a
box face, which the strict slab comparison of `AABB::hit` can cull, are
excluded) and `hnotie` (no two distinct primitives are hit at the same
parameter in range — on ties the two traversal orders legitimately keep
different records). -/
theorem bvh_matches_linear_sweep
    (o d : Vec3 ℚ) (axs : List (Fin 3)) (objs : List AObj) (tmin tmax : ℚ)
    (hne : objs ≠ [])
    (hdx : d.x ≠ 0) (hdy : d.y ≠ 0) (hdz : d.z ≠ 0)
    (hlt : tmin < tmax)
    (hcov : ∀ ob ∈ objs, ∀ t ∈ ob.hits, insideOpen ob.box (rayAt o d t) = true)
    (hnotie : ∀ ob1 ∈ objs, ∀ ob2 ∈ objs, ∀ t ∈ ob1.hits, t ∈ ob2.hits →
        tmin ≤ t → t ≤ tmax → ob1.oid = ob2.oid) :
    treeIntersect o d (buildBvh axs objs).1 tmin tmax =
      sweepIntersect objs tmin tmax := by
  have hwf := buildBvh_wf objs.length axs objs (le_refl _) hne
  have htree := treeIntersect_spec o d hdx hdy hdz _ _ hwf hcov tmin tmax
  have hsweep := sweepIntersect_spec objs tmin tmax
  cases htr : treeIntersect o d (buildBvh axs objs).1 tmin tmax with
  | none =>
    rw [htr] at htree
    cases hsw : sweepIntersect objs tmin tmax with
    | none => rfl
    | some p =>
      obtain ⟨t, i⟩ := p
      rw [hsw] at hsweep
      simp only [NodeSpec] at htree
      simp only [SweepSpec] at hsweep
      exact absurd hlt (not_lt.mpr (htree t i hsweep.1))
  | some p =>
    obtain ⟨t, i⟩ := p
    rw [htr] at htree
    simp only [NodeSpec] at htree
    obtain ⟨hcand, hmin⟩ := htree
    cases hsw : sweepIntersect objs tmin tmax with
    | none =>
      rw [hsw] at hsweep
      simp only [SweepSpec] at hsweep
      exact (hsweep t i hcand).elim
    | some q =>
      obtain ⟨t2, i2⟩ := q
      rw [hsw] at hsweep
      simp only [SweepSpec] at hsweep
      obtain ⟨hcand2, hmin2⟩ := hsweep
      have ht12 : t = t2 := le_antisymm (hmin t2 i2 hcand2) (hmin2 t i hcand)
      subst ht12
      obtain ⟨ob1, hob1, hoid1, hhits1, hat1, htc1⟩ := hcand
      obtain ⟨ob2, hob2, hoid2, hhits2, _, _⟩ := hcand2
      have hoids : ob1.oid = ob2.oid :=
        hnotie ob1 hob1 ob2 hob2 t hhits1 hhits2 hat1 htc1
      rw [hoid1, hoid2] at hoids
      rw [hoids]

/-- Concrete instance of the BVH/sweep equivalence: one object hitting at
`t = 2` strictly inside its box, ray from the origin along `(1,1,1)`,
range `(0, 10)`; all hypotheses checked by evaluation and the two
traversals agreeing on `some (2, 7)`. -/
theorem bvh_matches_linear_sweep_witness :
    ([(⟨[2], ⟨⟨1, 1, 1⟩, ⟨3, 3, 3⟩⟩, 7⟩ : AObj)] ≠ []) ∧
    ((⟨1, 1, 1⟩ : Vec3 ℚ).x ≠ 0) ∧ ((0 : ℚ) < 10) ∧
    (∀ ob ∈ [(⟨[2], ⟨⟨1, 1, 1⟩, ⟨3, 3, 3⟩⟩, 7⟩ : AObj)], ∀ t ∈ ob.hits,
      insideOpen ob.box (rayAt ⟨0, 0, 0⟩ ⟨1, 1, 1⟩ t) = true) ∧
    treeIntersect ⟨0, 0, 0⟩ ⟨1, 1, 1⟩
        (buildBvh [] [(⟨[2], ⟨⟨1, 1, 1⟩, ⟨3, 3, 3⟩⟩, 7⟩ : AObj)]).1 0 10 =
      sweepIntersect [(⟨[2], ⟨⟨1, 1, 1⟩, ⟨3, 3, 3⟩⟩, 7⟩ : AObj)] 0 10 :=
  ⟨by simp, by norm_num, by norm_num,
   by
    intro ob hob t ht
    rw [List.mem_singleton] at hob
    subst hob
    simp only at ht
    rw [List.mem_singleton] at ht
    subst ht
    norm_num [insideOpen, rayAt],
   bvh_matches_linear_sweep ⟨0, 0, 0⟩ ⟨1, 1, 1⟩ []
    [(⟨[2], ⟨⟨1, 1, 1⟩, ⟨3, 3, 3⟩⟩, 7⟩ : AObj)] 0 10
    (by simp) (by norm_num) (by norm_num) (by norm_num) (by norm_num)
    (by
      intro ob hob t ht
      rw [List.mem_singleton] at hob
      subst hob
      simp only at ht
      rw [List.mem_singleton] at ht
      subst ht
      norm_num [insideOpen, rayAt])
    (by
      intro ob1 hob1 ob2 hob2 t ht1 ht2 h1 h2
      rw [List.mem_singleton] at hob1 hob2
      subst hob1
      subst hob2
      rfl)⟩
